import Mathlib

/-!
# Verification of the kotlineum reactive state-management core

Shallow embedding of the library's core subsystems, translated from the
TypeScript sources:

* the observable value cell (`useStateFlow.ts` local `StateFlow` factory and
  the registry-created cell inside `GlobalStateFlow.ts`),
* the global `StateFlowRegistry` (`GlobalStateFlow.ts`),
* the debounced persistence writer (`debounce` in `GlobalStateFlow.ts`),
* the asynchronous hydrate continuation (`GlobalStateFlow.ts`, the
  `loadFromStorage(...).then(...)` handler),
* the list projection (`ListStateFlow.ts`).

JavaScript `Map` objects are modelled as association lists that preserve
insertion order: `set` on a present key replaces the value in place, `set` on
an absent key appends, `delete` removes the entry, iteration follows list
order.  Subscriber callbacks are modelled either as opaque string tags whose
invocations are recorded in logs, or (where throwing behaviour matters) as
functions into `Except`.
-/

namespace Kotlineum

/-! ## Association-list maps with JS `Map` semantics -/

/-- `Map.get`: first entry with the given key (keys are unique by
construction, since maps are only built with `setEntry`/`delEntry`). -/
def lookupEntry {α : Type} (l : List (String × α)) (k : String) : Option α :=
  (l.find? (fun p => decide (p.1 = k))).map (fun p => p.2)

/-- `Map.set`: replace in place if the key is present, append otherwise. -/
def setEntry {α : Type} : List (String × α) → String → α → List (String × α)
  | [], k, v => [(k, v)]
  | (k', v') :: rest, k, v =>
      if k' = k then (k, v) :: rest else (k', v') :: setEntry rest k v

/-- `Map.delete`: drop every entry with the key (at most one exists). -/
def delEntry {α : Type} (l : List (String × α)) (k : String) : List (String × α) :=
  l.filter (fun p => decide (p.1 ≠ k))

/-! ## Value-cell fan-out with throwing callbacks

`update` of the registry-created cell (`GlobalStateFlow.ts`, `getOrCreate`)
runs `subscribers.forEach((callback) => callback(newValue))` with **no**
try/catch: a throwing callback aborts the `forEach` and the exception
propagates to the caller of `update`.  `update` of the local `StateFlow`
factory (`useStateFlow.ts`) wraps each `callback(newValue)` in
`try { ... } catch (e) { Logger.error(...) }`.  Both fan-outs are embedded in
one function parametrised by `catchErr`; a callback is a function into
`Except` (`.error` models a throw). -/

/-- A subscriber callback that can throw (`Except.error` = thrown value). -/
abbrev ThrowCb (T : Type) : Type := T → Except String Unit

/-- `(uid, cb)` subscriber entries in insertion order. -/
abbrev ThrowSubs (T : Type) : Type := List (String × ThrowCb T)

/-- Fan-out over the subscriber list.  Returns the invocations that actually
ran (subscriber id, value passed), the errors caught and logged, and the
error propagated to the caller of `update` (`none` if it returned normally).
`catchErr = false`: `GlobalStateFlow.ts` registry cell (`update`, the bare
`forEach`); `catchErr = true`: `useStateFlow.ts` local cell (`update` with
per-callback try/catch). -/
def fanout {T : Type} (catchErr : Bool) : ThrowSubs T → T → List (String × T) × List String × Option String
  | [], _ => ([], [], none)
  | (uid, cb) :: rest, v =>
      match cb v with
      | .ok _ =>
          let r := fanout catchErr rest v
          ((uid, v) :: r.1, r.2.1, r.2.2)
      | .error e =>
          if catchErr then
            let r := fanout catchErr rest v
            ((uid, v) :: r.1, e :: r.2.1, r.2.2)
          else
            ([(uid, v)], [], some e)

/-- A cell with throwing callbacks: current value plus subscriber map. -/
structure ThrowCell (T : Type) where
  value : T
  subs : ThrowSubs T

/-- `update(newValue)` of the registry-created cell
(`GlobalStateFlow.ts:333-346`): sets `currentValue` first, then fans out with
no error handling (persistence trigger modelled separately by `debWrites`). -/
def updateUncaught {T : Type} (c : ThrowCell T) (v : T) :
    ThrowCell T × List (String × T) × List String × Option String :=
  (⟨v, c.subs⟩, fanout false c.subs v)

/-- `update(newValue)` of the local `StateFlow` cell (`useStateFlow.ts`,
current version): sets the value, then fans out catching and logging each
callback's error individually. -/
def updateCaught {T : Type} (c : ThrowCell T) (v : T) :
    ThrowCell T × List (String × T) × List String × Option String :=
  (⟨v, c.subs⟩, fanout true c.subs v)

/-! ## Observable cell with tagged callbacks

For the claims that do not involve throwing, a callback is an opaque string
tag and invocations are returned as `(tag, value)` records. -/

/-- An observable value cell: `currentValue` plus the `uniqueId → callback`
subscriber map (callbacks as opaque tags). -/
structure Cell (T : Type) where
  value : T
  subs : List (String × String)
deriving Repr, DecidableEq

/-- `subscribe(uniqueId, callback)` (`useStateFlow.ts` /
`GlobalStateFlow.ts`): registers the callback under the id, then immediately
invokes it once with the current value; returns the updated cell and the
invocations performed before `subscribe` returns. -/
def cellSubscribe {T : Type} (c : Cell T) (uid cb : String) : Cell T × List (String × T) :=
  (⟨c.value, setEntry c.subs uid cb⟩, [(cb, c.value)])

/-- `unsubscribe(uniqueId)`: `subscribers.delete(uniqueId)`.  The closure
returned by `subscribe` is `() => stateFlow.unsubscribe(uniqueId)`, i.e.
exactly this operation at the captured id. -/
def cellUnsubscribe {T : Type} (c : Cell T) (uid : String) : Cell T :=
  ⟨c.value, delEntry c.subs uid⟩

/-- `update(newValue)` for tag-callback cells: set the value, notify every
subscriber in insertion order. -/
def cellUpdate {T : Type} (c : Cell T) (v : T) : Cell T × List (String × T) :=
  (⟨v, c.subs⟩, c.subs.map (fun p => (p.2, v)))

/-! ## The global `StateFlowRegistry` (`GlobalStateFlow.ts`)

The registry maps string keys to cells; `getOrCreate` creates on first use
and returns the stored cell unchanged afterwards.  The hydrate read and the
debounced save are asynchronous; `getOrCreate` only *schedules* them, so they
are embedded separately (`hydrateResolve`, `debWrites`).  The serializer /
deserializer options are function-valued and irrelevant to the claims, so the
normalised-options record keeps the scalar fields only. -/

/-- `StorageType` (`GlobalStateFlow.ts`). -/
inductive StorageTy
  | localStorage
  | indexedDB
deriving Repr, DecidableEq

/-- Caller-supplied `PersistOptions` (optional fields). -/
structure POpts where
  storageKey : Option String := none
  enabled : Option Bool := none
  storageType : Option StorageTy := none
  dbName : Option String := none
  storeName : Option String := none
  debounceTime : Option Nat := none
  emitEvents : Option Bool := none
deriving Repr, DecidableEq

/-- Options as normalised and stored by `getOrCreate`
(`GlobalStateFlow.ts:250-260`). -/
structure NOpts where
  storageKey : String
  enabled : Bool
  storageType : StorageTy
  dbName : String
  storeName : String
  debounceTime : Nat
  emitEvents : Bool
deriving Repr, DecidableEq

/-- Normalisation of `PersistOptions` at creation (`||` on `debounceTime`
treats `0` as absent, `!== false` on the booleans). -/
def normalizeOpts (key : String) (o : POpts) : NOpts :=
  { storageKey := o.storageKey.getD key
    enabled := o.enabled ≠ some false
    storageType := o.storageType.getD .localStorage
    dbName := o.dbName.getD "kotlineum_state"
    storeName := o.storeName.getD "state_store"
    debounceTime := match o.debounceTime with
      | some n => if n = 0 then 300 else n
      | none => 300
    emitEvents := o.emitEvents ≠ some false }

/-- `StateFlowRegistry` state: `flows`, `persistOptions`, and the keys for
which a `debouncedSaveFunctions` entry exists.  (The event-subscriber map is
carried by the hydrate/event model below, not needed here.) -/
structure RegState (T : Type) where
  flows : List (String × Cell T)
  persistOpts : List (String × NOpts)
  debSaveKeys : List String
deriving Repr, DecidableEq

/-- `getOrCreate(key, initialValue, persistOptions?)`
(`GlobalStateFlow.ts:244-361`): if `key` is absent, normalise and store the
options (when given), register a debounced save and schedule the hydrate read
(when persistence is not disabled), and store a fresh cell holding
`initialValue`; if `key` is present, do nothing.  Returns the updated
registry and `this.flows.get(key)`. -/
def getOrCreate {T : Type} (st : RegState T) (key : String) (init : T)
    (opts : Option POpts) : RegState T × Option (Cell T) :=
  if (lookupEntry st.flows key).isSome then
    (st, lookupEntry st.flows key)
  else
    let persistOpts :=
      match opts with
      | some o => setEntry st.persistOpts key (normalizeOpts key o)
      | none => st.persistOpts
    let debSaveKeys :=
      match opts with
      | some o => if o.enabled ≠ some false then st.debSaveKeys ++ [key] else st.debSaveKeys
      | none => st.debSaveKeys
    -- (the one-shot hydrate read is scheduled here when persistence is
    -- enabled; its continuation is `hydrateResolve`)
    let flows := st.flows ++ [(key, ⟨init, []⟩)]
    ({ flows := flows, persistOpts := persistOpts, debSaveKeys := debSaveKeys },
     lookupEntry flows key)

/-! ## The hydrate continuation (`GlobalStateFlow.ts:288-316`)

`getOrCreate` runs `loadFromStorage(key, options).then(loadedValue => ...)`
with **no** `.catch`.  `loadFromStorage` resolves with the deserialised value,
resolves with `undefined` when no prior value exists, and rejects on a read
error (it catches and rethrows).  The continuation below receives that
outcome; on rejection the `then`-handler never runs (and nothing is thrown
into the creator of the cell). -/

/-- `StateFlowEventType` (`GlobalStateFlow.ts`). -/
inductive EvKind
  | initialLoadComplete
  | valueUpdated
  | persisted
  | loadedFromStorage
  | error
deriving Repr, DecidableEq

/-- Resolution of the hydrate read for a cell whose in-memory value is `v0`
(no intervening `update`): returns the cell's value afterwards and the events
emitted on the event channel, in order.  `emitEvents` is the stored
`options.emitEvents`. -/
def hydrateResolve {T : Type} (emitEvents : Bool) (v0 : T)
    (res : Except String (Option T)) : T × List EvKind :=
  match res with
  | .error _ => (v0, [])  -- rejected promise, no catch handler: nothing runs
  | .ok none => (v0, if emitEvents then [.initialLoadComplete] else [])
  | .ok (some w) =>
      -- flow.update(loadedValue), then LOADED_FROM_STORAGE, then
      -- INITIAL_LOAD_COMPLETE
      (w, (if emitEvents then [.loadedFromStorage] else []) ++
          (if emitEvents then [.initialLoadComplete] else []))

/-! ## The debounced save (`GlobalStateFlow.ts:172-187`, `263-281`)

`debounce(func, wait)` keeps one pending timer: each call clears a pending
timer (if any) and schedules `func` with the latest arguments `wait` ms
later.  The registry wraps `saveToStorage` in such a debouncer, and every
`update` on a persistence-enabled cell calls it with the new value.  The
timeline is discrete: a call at time `t` schedules the write for `t + wait`;
a pending write whose deadline is `≤` the next call's time has already fired
before that call. -/

/-- Debouncer state: the pending `(deadline, argument)` timer, if any. -/
def DebSt (α : Type) : Type := Option (Nat × α)

/-- One call of the debounced function at time `t` with argument `v`:
returns the writes that fired strictly before this call, and the new pending
state (the old timer is cleared, `func` is rescheduled for `t + w`). -/
def debStep {α : Type} (w : Nat) (s : DebSt α) (t : Nat) (v : α) : List α × DebSt α :=
  match s with
  | some (d, u) =>
      if d ≤ t then ([u], some (t + w, v))  -- old timer already fired at d
      else ([], some (t + w, v))            -- clearTimeout, reschedule
  | none => ([], some (t + w, v))

/-- Run a time-ordered list of calls through the debouncer, collecting the
writes that fire. -/
def debRun {α : Type} (w : Nat) (s : DebSt α) : List (Nat × α) → List α × DebSt α
  | [] => ([], s)
  | (t, v) :: rest =>
      let st := debStep w s t v
      let r := debRun w st.2 rest
      (st.1 ++ r.1, r.2)

/-- After the last call, the remaining pending timer fires. -/
def debFlush {α : Type} (s : DebSt α) : List α :=
  match s with
  | some (_, u) => [u]
  | none => []

/-- All backend writes produced by a sequence of debounced calls (the values
handed to `saveToStorage`), starting from an idle debouncer. -/
def debWrites {α : Type} (w : Nat) (calls : List (Nat × α)) : List α :=
  let r := debRun w none calls
  r.1 ++ debFlush r.2

/-- The calls all fall within one debounce window: each call happens strictly
before the previous call's rescheduled deadline. -/
def withinWindow {α : Type} (w : Nat) : List (Nat × α) → Prop
  | [] => True
  | [_] => True
  | (t, _) :: (t', v') :: rest => t' < t + w ∧ withinWindow w ((t', v') :: rest)

/-! ## The list projection (`ListStateFlow.ts`, current version)

A `ListStateFlow` keeps one whole-collection cell (obtained from the global
registry under `key`) and one per-item cell per element (obtained from the
global registry under `` `${key}_item_${id}` ``).  Because
`itemStateFlows.set(id, ...)` always stores the object returned by
`GlobalStateFlow(itemKey, ...)`, the per-item map is faithfully represented
by the set of its keys plus the registry slice: the cell reached through
`itemStateFlows.get(id)` *is* the registry cell at `itemKey key id`.

Item identifiers are modelled as strings (the code canonicalises with
`String(item[idField])`; `removeItem`'s comparison against the raw `id`
argument coincides with the canonical form for string ids, the only form the
claims need).  Whole-collection subscriber notifications are recorded as
`mainLog` (one entry per `stateFlow.update` on the collection cell: every
collection subscriber receives exactly one callback per entry).  Per-item
subscriber callbacks are opaque tags; their invocations go to `ilog`;
`onItemAdded` callbacks go to `aclog`. -/

/-- `ListStateFlowEvent` (`ListStateFlow.ts`): the event kinds actually
emitted, with the payload used at each call site. -/
inductive LEvent (T : Type)
  | initialLoadComplete (items : List T)
  | itemAddedOne (item : T)
  | itemAddedMany (items : List T)
  | itemUpdatedOne (item : T)
  | itemUpdatedMany (items : List T)
  | itemRemoved (item : T)
deriving Repr, DecidableEq

/-- The registry key of the per-item cell: `` `${key}_item_${id}` ``. -/
def itemKey (key id : String) : String := key ++ "_item_" ++ id

/-- State of a `ListStateFlow` together with the slice of the global registry
holding its cells. -/
structure LSF (T : Type) where
  /-- the `key` constructor argument -/
  key : String
  /-- the `emitEvents` option (default `true`) -/
  emitEvents : Bool
  /-- current value of the whole-collection cell -/
  mainValue : List T
  /-- values pushed to the whole-collection cell by `update`, in order -/
  mainLog : List (List T)
  /-- global registry slice: per-item cells, keyed by `itemKey key id` -/
  reg : List (String × Cell T)
  /-- keys of `itemStateFlows` (the mapped-to flow is the registry cell) -/
  itemIds : List String
  /-- `pendingItemSubscriptions`: id → (uniqueId → callback tag) -/
  pending : List (String × List (String × String))
  /-- `itemAdditionCallbacks`: callbackId → callback tag -/
  addCbs : List (String × String)
  /-- per-item subscriber invocations: (callback tag, value), in order -/
  ilog : List (String × T)
  /-- `onItemAdded` invocations: (callback tag, item), in order -/
  aclog : List (String × T)
  /-- events emitted via `emitEvent`, in order -/
  events : List (LEvent T)
deriving Repr, DecidableEq

/-- `GlobalStateFlow(k, v)` on the item registry: first caller creates, later
callers get the stored cell unchanged (the supplied initial value is then
ignored). -/
def regGOC {T : Type} (reg : List (String × Cell T)) (k : String) (v : T) :
    List (String × Cell T) :=
  if (lookupEntry reg k).isSome then reg else reg ++ [(k, ⟨v, []⟩)]

/-- `flow.update(v)` on the registry cell at `k`: set the value, notify the
cell's subscribers in insertion order.  Returns the updated registry and the
invocations. -/
def regUpdateCell {T : Type} (reg : List (String × Cell T)) (k : String) (v : T) :
    List (String × Cell T) × List (String × T) :=
  match lookupEntry reg k with
  | some c => (setEntry reg k ⟨v, c.subs⟩, c.subs.map (fun p => (p.2, v)))
  | none => (reg, [])

/-- `flow.subscribe(uid, cb)` on the registry cell at `k`: register the
callback, immediately invoke it with the current value. -/
def regSubscribe {T : Type} (reg : List (String × Cell T)) (k : String) (uid cb : String) :
    List (String × Cell T) × List (String × T) :=
  match lookupEntry reg k with
  | some c => (setEntry reg k ⟨c.value, setEntry c.subs uid cb⟩, [(cb, c.value)])
  | none => (reg, [])

/-- `Map.set` on a key list (the mapped value being determined elsewhere):
keeps the first position on re-insertion. -/
def setIdList (ids : List String) (id : String) : List String :=
  if id ∈ ids then ids else ids ++ [id]

/-- `emitEvent`, gated by `this.emitEvents` exactly as at every call site. -/
def emitEv {T : Type} (st : LSF T) (e : LEvent T) : LSF T :=
  if st.emitEvents then { st with events := st.events ++ [e] } else st

/-- `this.stateFlow.update(l)` on the whole-collection cell. -/
def mainUpdate {T : Type} (st : LSF T) (l : List T) : LSF T :=
  { st with mainValue := l, mainLog := st.mainLog ++ [l] }

/-- `initializeItemFlows(items)` (`ListStateFlow.ts:98-109`): clear
`itemStateFlows`, then for each item obtain `GlobalStateFlow(itemKey, item)`
— which keeps a pre-existing registry cell **unchanged** — and store it. -/
def initFlows {T : Type} (idOf : T → String) (st : LSF T) (items : List T) : LSF T :=
  items.foldl
    (fun acc item =>
      let id := idOf item
      { acc with
          reg := regGOC acc.reg (itemKey acc.key id) item,
          itemIds := setIdList acc.itemIds id })
    { st with itemIds := [] }

/-- The `ListStateFlow` constructor on a fresh global registry: the
collection cell is created with `initialItems`, per-item flows are
initialised, and (with events enabled, the default) INITIAL_LOAD_COMPLETE is
emitted. -/
def mkLSF {T : Type} (idOf : T → String) (key : String) (initialItems : List T) : LSF T :=
  let st0 : LSF T :=
    { key := key, emitEvents := true, mainValue := initialItems, mainLog := [],
      reg := [], itemIds := [], pending := [], addCbs := [], ilog := [],
      aclog := [], events := [] }
  let st1 := initFlows idOf st0 initialItems
  emitEv st1 (.initialLoadComplete initialItems)

/-- `getItems()`: current whole-collection snapshot. -/
def getItems {T : Type} (st : LSF T) : List T := st.mainValue

/-- First element of `l` whose identifier is `id`. -/
def listFind {T : Type} (idOf : T → String) (l : List T) (id : String) : Option T :=
  l.find? (fun x => decide (idOf x = id))

/-- The value `getItem(id)` returns (`ListStateFlow.ts:121-144`): the
per-item cell's value when the flow exists, otherwise the collection's copy
(the self-healing path, which also recreates the flow from that copy). -/
def getItemVal {T : Type} (idOf : T → String) (st : LSF T) (id : String) : Option T :=
  if id ∈ st.itemIds then (lookupEntry st.reg (itemKey st.key id)).map (fun c => c.value)
  else listFind idOf st.mainValue id

/-- The pending-subscription activation run at the end of `addItem`
(`ListStateFlow.ts:228-243`): each waiting `(uniqueId, callback)` is
subscribed on the item's flow (receiving the current value immediately), then
the pending record for the id is cleared. -/
def activatePending {T : Type} (st : LSF T) (id : String) : LSF T :=
  match lookupEntry st.pending id with
  | none => st
  | some waiting =>
      let st' := waiting.foldl
        (fun acc p =>
          if id ∈ acc.itemIds then
            let r := regSubscribe acc.reg (itemKey acc.key id) p.1 p.2
            { acc with reg := r.1, ilog := acc.ilog ++ r.2 }
          else acc)
        st
      { st' with pending := delEntry st'.pending id }

/-- `addItem(item)` (`ListStateFlow.ts:183-244`).  With an existing flow and
an existing row: update the per-item flow only and emit ITEM_UPDATED (the
collection cell is **not** updated).  Otherwise: obtain the per-item flow
from the registry, store it, append to the collection, run the
addition callbacks, emit ITEM_ADDED.  Then activate pending subscriptions. -/
def addItem {T : Type} (idOf : T → String) (st : LSF T) (item : T) : LSF T :=
  let id := idOf item
  let st1 :=
    if id ∈ st.itemIds ∧ (st.mainValue.any (fun x => decide (idOf x = id))) = true then
      let r := regUpdateCell st.reg (itemKey st.key id) item
      emitEv { st with reg := r.1, ilog := st.ilog ++ r.2 } (.itemUpdatedOne item)
    else
      let st' := { st with
        reg := regGOC st.reg (itemKey st.key id) item,
        itemIds := setIdList st.itemIds id }
      let st'' := mainUpdate st' (st'.mainValue ++ [item])
      let st3 := { st'' with
        aclog := st''.aclog ++ st''.addCbs.map (fun p => (p.2, item)) }
      emitEv st3 (.itemAddedOne item)
  activatePending st1 id

/-- `removeItem(id)` (`ListStateFlow.ts:270-289`): drop the id from
`itemStateFlows` (the registry keeps the cell), filter the collection, emit
ITEM_REMOVED when a row was found. -/
def removeItem {T : Type} (idOf : T → String) (st : LSF T) (id : String) : LSF T :=
  let st0 := { st with itemIds := st.itemIds.filter (fun i => decide (i ≠ id)) }
  let removed := listFind idOf st0.mainValue id
  let st1 := mainUpdate st0 (st0.mainValue.filter (fun x => decide (idOf x ≠ id)))
  match removed with
  | some x => emitEv st1 (.itemRemoved x)
  | none => st1

/-- `updateItem(id, updater)` (`ListStateFlow.ts:157-177`): no-op when the
flow is unknown; otherwise push the updater's result into the per-item cell
and into every matching slot of the collection cell. -/
def updateItem {T : Type} (idOf : T → String) (st : LSF T) (id : String)
    (f : T → T) : LSF T :=
  if id ∈ st.itemIds then
    match lookupEntry st.reg (itemKey st.key id) with
    | some c =>
        let v := f c.value
        let r := regUpdateCell st.reg (itemKey st.key id) v
        let st1 := { st with reg := r.1, ilog := st.ilog ++ r.2 }
        mainUpdate st1 (st1.mainValue.map (fun x => if idOf x = id then v else x))
    | none => st  -- unreachable: the mapped-to flow object always exists
  else st

/-- `updateItems(newList)` (`ListStateFlow.ts:149-152`): wholesale replace of
the collection cell, then `initializeItemFlows` — which reuses any
pre-existing registry cell unchanged. -/
def updateItems {T : Type} (idOf : T → String) (st : LSF T) (newItems : List T) : LSF T :=
  initFlows idOf (mainUpdate st newItems) newItems

/-- One entry of `batchUpdate`'s loop (`ListStateFlow.ts:481-497`), acting on
the accumulated state and the local `updatedList`. -/
def batchStep {T : Type} (idOf : T → String) (acc : LSF T × List T)
    (u : String × (T → T)) : LSF T × List T :=
  let st := acc.1
  let id := u.1
  if id ∈ st.itemIds then
    match lookupEntry st.reg (itemKey st.key id) with
    | some c =>
        let v := u.2 c.value
        let r := regUpdateCell st.reg (itemKey st.key id) v
        ({ st with reg := r.1, ilog := st.ilog ++ r.2 },
         acc.2.map (fun x => if idOf x = id then v else x))
    | none => acc
  else acc

/-- `batchUpdate(updates)` (`ListStateFlow.ts:477-501`): apply every update
to its per-item cell, then commit the accumulated list to the collection cell
exactly once. -/
def batchUpdate {T : Type} (idOf : T → String) (st : LSF T)
    (us : List (String × (T → T))) : LSF T :=
  let r := us.foldl (batchStep idOf) (st, st.mainValue)
  mainUpdate r.1 r.2

/-- One iteration of `addItems`' loop (`ListStateFlow.ts:373-419`), acting on
`(state, newList, addedItems, updatedItems)`: an id already in `newList` is
routed through the update path and replaces its slot; a new id gets a flow
from the registry, is appended, and has its pending subscriptions activated
immediately. -/
def addItemsStep {T : Type} (idOf : T → String)
    (acc : LSF T × List T × List T × List T) (item : T) :
    LSF T × List T × List T × List T :=
  let st := acc.1
  let newList := acc.2.1
  let added := acc.2.2.1
  let updated := acc.2.2.2
  let id := idOf item
  match newList.findIdx? (fun x => decide (idOf x = id)) with
  | some i =>
      let st' :=
        if id ∈ st.itemIds then
          let r := regUpdateCell st.reg (itemKey st.key id) item
          { st with reg := r.1, ilog := st.ilog ++ r.2 }
        else
          { st with reg := regGOC st.reg (itemKey st.key id) item,
                    itemIds := setIdList st.itemIds id }
      (st', newList.set i item, added, updated ++ [item])
  | none =>
      let st' := { st with reg := regGOC st.reg (itemKey st.key id) item,
                           itemIds := setIdList st.itemIds id }
      (activatePending st' id, newList ++ [item], added ++ [item], updated)

/-- `addItems(items)` (`ListStateFlow.ts:357-451`): process every item
against an evolving copy of the collection, commit the collection cell
exactly once, then run addition callbacks and emit one batched ITEM_ADDED
and/or ITEM_UPDATED event. -/
def addItems {T : Type} (idOf : T → String) (st : LSF T) (items : List T) : LSF T :=
  if items.isEmpty then st
  else
    let r := items.foldl (addItemsStep idOf) (st, st.mainValue, [], [])
    let added := r.2.2.1
    let updated := r.2.2.2
    let st1 := mainUpdate r.1 r.2.1
    let st2 :=
      if added.isEmpty then st1
      else
        let st1' := { st1 with
          aclog := st1.aclog ++
            (added.map (fun item => st1.addCbs.map (fun p => (p.2, item)))).flatten }
        emitEv st1' (.itemAddedMany added)
    if updated.isEmpty then st2 else emitEv st2 (.itemUpdatedMany updated)

/-- `subscribeToItem(id, uniqueId, callback)` (`ListStateFlow.ts:306-333`):
subscribe on the flow when it exists; otherwise record a pre-subscription
(never failing).  The unsubscribe closure returned in the pending branch is
`pendingUnsub` below; in the existing branch it is the cell's own
unsubscribe. -/
def subscribeToItem {T : Type} (st : LSF T) (id uid cb : String) : LSF T :=
  if id ∈ st.itemIds then
    let r := regSubscribe st.reg (itemKey st.key id) uid cb
    { st with reg := r.1, ilog := st.ilog ++ r.2 }
  else
    let cur := (lookupEntry st.pending id).getD []
    { st with pending := setEntry st.pending id (setEntry cur uid cb) }

/-- The closure returned by `subscribeToItem`'s pending branch
(`ListStateFlow.ts:324-332`): remove the `uniqueId` from the pending record
for the captured id (dropping the record when it empties); it never touches
the per-item cells. -/
def pendingUnsub {T : Type} (st : LSF T) (id uid : String) : LSF T :=
  match lookupEntry st.pending id with
  | none => st
  | some waiting =>
      let waiting' := delEntry waiting uid
      if waiting'.isEmpty then { st with pending := delEntry st.pending id }
      else { st with pending := setEntry st.pending id waiting' }

/-! ## Claim C1 -/

/-- Concrete cell for C1: subscriber "A" registered first and throwing,
subscriber "B" registered after it and well-behaved. -/
def c1Cell : ThrowCell Nat :=
  ⟨0, [("A", fun _ => Except.error "boom"), ("B", fun _ => Except.ok ())]⟩

/-- Concrete cell for the C1 witness: one throwing subscriber for the caught
side would also do, but the hypothesis of the uncaught side needs a cell with
no throwing callbacks. -/
def c1OkCell : ThrowCell Nat := ⟨0, [("B", fun _ => Except.ok ())]⟩

/-! ## Claim C6 -/

/-- Last element of `c :: l`. -/
def lastOf {α : Type} (c : α) : List α → α
  | [] => c
  | c' :: l => lastOf c' l

/-! ## List/item consistency -/

/-- The list/item consistency invariant (spec §3): every identifier present
in the whole-collection cell has its (first) element equal to the value
`getItem` reports for it. -/
def Consistent {T : Type} (idOf : T → String) (st : LSF T) : Prop :=
  ∀ id x, listFind idOf st.mainValue id = some x → getItemVal idOf st id = some x

/-- Every row of the collection has an entry in `itemStateFlows`. -/
def IdCover {T : Type} (idOf : T → String) (st : LSF T) : Prop :=
  ∀ x ∈ st.mainValue, idOf x ∈ st.itemIds

/-- Every `itemStateFlows` entry is backed by a registry cell (true by
construction in the code, where the map stores the cell object itself). -/
def RegCover {T : Type} (st : LSF T) : Prop :=
  ∀ id ∈ st.itemIds, (lookupEntry st.reg (itemKey st.key id)).isSome

/-- Concrete item type for counterexamples and witnesses. -/
structure Item where
  id : String
  name : String
deriving Repr, DecidableEq

/-- `{id: "1", name: "a"}`. -/
def itemA : Item := ⟨"1", "a"⟩

/-- `{id: "1", name: "b"}`: same identifier, different payload. -/
def itemB : Item := ⟨"1", "b"⟩

/-- The spec §8 scenario: a list created with `[{id:1,name:"a"}]` followed by
`addItem({id:1,name:"b"})`. -/
def lsfAB : LSF Item := addItem Item.id (mkLSF Item.id "list" [itemA]) itemB

/-! ## Batch update invariant -/

/-- Invariant carried through `batchUpdate`'s loop: the evolving local list
and the per-item cells stay in sync for every identifier that has a flow. -/
def batchInv {T : Type} (idOf : T → String) (st : LSF T) (acc : LSF T × List T) : Prop :=
  acc.1.key = st.key ∧ acc.1.itemIds = st.itemIds ∧
  ∀ id x, id ∈ st.itemIds → listFind idOf acc.2 id = some x →
    (lookupEntry acc.1.reg (itemKey st.key id)).map (fun c => c.value) = some x

/-- Invariant carried through `addItems`' loop over a batch of genuinely new,
registry-fresh, pairwise-distinct items: `done` are the items already
processed. -/
def addItemsInv {T : Type} (idOf : T → String) (st : LSF T) (done : List T)
    (acc : LSF T × List T × List T × List T) : Prop :=
  acc.1.key = st.key ∧
  acc.1.itemIds = st.itemIds ++ done.map idOf ∧
  acc.2.1 = st.mainValue ++ done ∧
  acc.2.2.1 = done ∧
  acc.2.2.2 = [] ∧
  (∀ k, (∀ y ∈ done, k ≠ itemKey st.key (idOf y)) →
    lookupEntry acc.1.reg k = lookupEntry st.reg k) ∧
  (∀ y ∈ done, (lookupEntry acc.1.reg (itemKey st.key (idOf y))).map
    (fun c => c.value) = some y)

/-- Updater used by the C9 witness. -/
def c9f : Item → Item := fun y => ⟨y.id, y.name ++ "!"⟩

/-! ## Theorems -/

theorem lookupEntry_nil {α : Type} (k : String) :
    lookupEntry ([] : List (String × α)) k = none := rfl

theorem lookupEntry_cons {α : Type} (k' : String) (v' : α) (rest : List (String × α))
    (k : String) :
    lookupEntry ((k', v') :: rest) k =
      if k' = k then some v' else lookupEntry rest k := by
  by_cases h : k' = k <;> simp [lookupEntry, List.find?, h]

theorem lookupEntry_setEntry_self {α : Type} (l : List (String × α)) (k : String) (v : α) :
    lookupEntry (setEntry l k v) k = some v := by
  induction l with
  | nil => simp [setEntry, lookupEntry_cons]
  | cons p rest ih =>
      obtain ⟨k₀, v₀⟩ := p
      by_cases h : k₀ = k
      · simp [setEntry, h, lookupEntry_cons]
      · simp [setEntry, h, lookupEntry_cons, ih]

theorem lookupEntry_setEntry_ne {α : Type} (l : List (String × α)) (k k' : String) (v : α)
    (h : k' ≠ k) :
    lookupEntry (setEntry l k v) k' = lookupEntry l k' := by
  induction l with
  | nil => simp [setEntry, lookupEntry_cons, lookupEntry_nil, Ne.symm h]
  | cons p rest ih =>
      obtain ⟨k₀, v₀⟩ := p
      by_cases hp : k₀ = k
      · subst hp
        simp [setEntry, lookupEntry_cons, Ne.symm h]
      · simp [setEntry, hp, lookupEntry_cons, ih]

theorem lookupEntry_delEntry_self {α : Type} (l : List (String × α)) (k : String) :
    lookupEntry (delEntry l k) k = none := by
  induction l with
  | nil => rfl
  | cons p rest ih =>
      obtain ⟨k₀, v₀⟩ := p
      by_cases h : k₀ = k
      · simpa [delEntry, h] using ih
      · simpa [delEntry, h, lookupEntry_cons] using ih

theorem lookupEntry_delEntry_ne {α : Type} (l : List (String × α)) (k k' : String)
    (h : k' ≠ k) :
    lookupEntry (delEntry l k) k' = lookupEntry l k' := by
  induction l with
  | nil => rfl
  | cons p rest ih =>
      obtain ⟨k₀, v₀⟩ := p
      by_cases hp : k₀ = k
      · subst hp
        simpa [delEntry, lookupEntry_cons, Ne.symm h] using ih
      · simp only [delEntry, decide_not] at ih
        simp [delEntry, hp, lookupEntry_cons, decide_not, ih]

theorem lookupEntry_append {α : Type} (l₁ l₂ : List (String × α)) (k : String) :
    lookupEntry (l₁ ++ l₂) k =
      match lookupEntry l₁ k with
      | some v => some v
      | none => lookupEntry l₂ k := by
  induction l₁ with
  | nil => simp [lookupEntry_nil]
  | cons p rest ih =>
      obtain ⟨k₀, v₀⟩ := p
      by_cases h : k₀ = k
      · simp [lookupEntry_cons, h]
      · simpa [lookupEntry_cons, h] using ih

/-! ## Fan-out lemmas -/

theorem fanout_caught_complete {T : Type} (subs : ThrowSubs T) (v : T) :
    (fanout true subs v).1 = subs.map (fun p => (p.1, v)) ∧
    (fanout true subs v).2.2 = none := by
  induction subs with
  | nil => exact ⟨rfl, rfl⟩
  | cons p rest ih =>
      obtain ⟨uid, cb⟩ := p
      cases hcb : cb v with
      | ok u => cases u; simp [fanout, hcb, ih.1, ih.2]
      | error e => simp [fanout, hcb, ih.1, ih.2]

theorem fanout_uncaught_ok {T : Type} (subs : ThrowSubs T) (v : T)
    (h : ∀ p ∈ subs, p.2 v = Except.ok ()) :
    (fanout false subs v).1 = subs.map (fun p => (p.1, v)) ∧
    (fanout false subs v).2.2 = none := by
  induction subs with
  | nil => exact ⟨rfl, rfl⟩
  | cons p rest ih =>
      obtain ⟨uid, cb⟩ := p
      have hcb : cb v = Except.ok () := h (uid, cb) (List.mem_cons_self _ _)
      have ih' := ih (fun q hq => h q (List.mem_cons_of_mem _ hq))
      simp [fanout, hcb, ih'.1, ih'.2]

/-- **C1, counterexample.**  The claim states that for *every* cell an update
reaches every subscriber even when an earlier one throws, with the error
caught and not propagated.  On the registry-created cell
(`GlobalStateFlow.ts` `update`, embedded as `updateUncaught`) with subscriber
"A" (throws) registered before "B": only "A" is invoked, "B" never receives
the value, and the thrown error propagates to the caller of `update`. -/
theorem C1_counterexample :
    (updateUncaught c1Cell 5).2.1.map Prod.fst = ["A"] ∧
    ("B", 5) ∉ (updateUncaught c1Cell 5).2.1 ∧
    (updateUncaught c1Cell 5).2.2.2 = some "boom" := by
  refine ⟨rfl, ?_, rfl⟩
  decide

/-- **C1 (amended).**  Fan-out completeness under failure holds for the local
`StateFlow` cell (`useStateFlow.ts` `update`, per-callback try/catch): every
registered subscriber is invoked with the new value and no error propagates.
For the registry-created cell (`GlobalStateFlow.ts` `update`, no try/catch)
this holds only when no subscriber callback throws; a throwing callback
aborts the fan-out and its error propagates to the caller of `update`. -/
theorem C1_amended {T : Type} (c : ThrowCell T) (v : T) :
    ((updateCaught c v).2.1 = c.subs.map (fun p => (p.1, v)) ∧
     (updateCaught c v).2.2.2 = none) ∧
    ((∀ p ∈ c.subs, p.2 v = Except.ok ()) →
      (updateUncaught c v).2.1 = c.subs.map (fun p => (p.1, v)) ∧
      (updateUncaught c v).2.2.2 = none) := by
  refine ⟨⟨(fanout_caught_complete c.subs v).1, (fanout_caught_complete c.subs v).2⟩, ?_⟩
  intro h
  exact ⟨(fanout_uncaught_ok c.subs v h).1, (fanout_uncaught_ok c.subs v h).2⟩

/-- **C1 witness**: the amended statement applied at a concrete cell. -/
theorem C1_amended_witness :
    (updateUncaught c1OkCell 7).2.1 = [("B", 7)] ∧
    (updateUncaught c1OkCell 7).2.2.2 = none := by
  have h := (C1_amended c1OkCell 7).2 (by
    intro p hp
    simp only [c1OkCell, List.mem_singleton] at hp
    subst hp
    rfl)
  simpa [c1OkCell] using h

/-! ## Claim C2 -/

/-- **C2.**  `getOrCreate(k, v1)` followed by `getOrCreate(k, v2, opts2)` on a
registry not yet holding `k` (first call without persistence): the second
call changes nothing in the registry (so the second caller's `initialValue`
and `persistOptions`, whatever they are, have no effect), both calls return
the one stored cell, and that cell's value is `v1`. -/
theorem C2_registry_single_instance {T : Type} (st0 : RegState T) (k : String)
    (v1 v2 : T) (o2 : Option POpts) (h : lookupEntry st0.flows k = none) :
    (getOrCreate (getOrCreate st0 k v1 none).1 k v2 o2).1 = (getOrCreate st0 k v1 none).1 ∧
    (getOrCreate (getOrCreate st0 k v1 none).1 k v2 o2).2 = (getOrCreate st0 k v1 none).2 ∧
    (getOrCreate st0 k v1 none).2 = some ⟨v1, []⟩ := by
  have hl : lookupEntry (st0.flows ++ [(k, (⟨v1, []⟩ : Cell T))]) k = some ⟨v1, []⟩ := by
    rw [lookupEntry_append, h]
    simp [lookupEntry_cons]
  simp [getOrCreate, h, hl]

/-- **C2 witness**: the theorem at a fresh registry with `v1 = 1`,
`v2 = 999`, and persistence options on the second call. -/
theorem C2_witness :
    (getOrCreate (getOrCreate (⟨[], [], []⟩ : RegState Nat) "k" 1 none).1 "k" 999
        (some { enabled := some true })).1 =
      (getOrCreate (⟨[], [], []⟩ : RegState Nat) "k" 1 none).1 ∧
    (getOrCreate (getOrCreate (⟨[], [], []⟩ : RegState Nat) "k" 1 none).1 "k" 999
        (some { enabled := some true })).2 =
      (getOrCreate (⟨[], [], []⟩ : RegState Nat) "k" 1 none).2 ∧
    (getOrCreate (⟨[], [], []⟩ : RegState Nat) "k" 1 none).2 = some ⟨1, []⟩ :=
  C2_registry_single_instance ⟨[], [], []⟩ "k" 1 999 (some { enabled := some true }) rfl

/-! ## Claim C5 -/

/-- **C5, counterexample.**  The claim states that when the hydrate read
fails, the cell keeps its initial value and exactly one
INITIAL_LOAD_COMPLETE event fires.  In the code the `then`-handler that emits
the event is skipped on rejection (there is no `.catch`): with initial value
`0` and a failing read, the value stays `0` but **no** event at all fires. -/
theorem C5_counterexample :
    hydrateResolve true (0 : Nat) (Except.error "read failed") = (0, []) ∧
    (hydrateResolve true (0 : Nat) (Except.error "read failed")).2 ≠
      [EvKind.initialLoadComplete] := by
  exact ⟨rfl, by decide⟩

/-- **C5 (amended).**  With persistence and events enabled: when the hydrate
read succeeds but finds no stored value, the cell keeps the caller-supplied
initial value, no LOADED_FROM_STORAGE fires and exactly one
INITIAL_LOAD_COMPLETE fires; when the read fails, the cell also keeps its
initial value and no event fires at all.  In both cases nothing is thrown at
the cell's creator (the continuation returns normally). -/
theorem C5_amended {T : Type} (v0 : T) (e : String) :
    hydrateResolve true v0 (Except.ok none) = (v0, [EvKind.initialLoadComplete]) ∧
    hydrateResolve true v0 (Except.error e) = (v0, []) :=
  ⟨rfl, rfl⟩

theorem debRun_chain {α : Type} (w : Nat) :
    ∀ (rest : List (Nat × α)) (t : Nat) (v : α),
      withinWindow w ((t, v) :: rest) →
      debRun w (some (t + w, v)) rest =
        ([], some ((lastOf (t, v) rest).1 + w, (lastOf (t, v) rest).2)) := by
  intro rest
  induction rest with
  | nil => intro t v _; simp [debRun, lastOf]
  | cons c rest' ih =>
      intro t v h
      obtain ⟨t', v'⟩ := c
      obtain ⟨h1, h2⟩ := h
      have hstep : debStep w (some (t + w, v)) t' v' = ([], some (t' + w, v')) := by
        simp [debStep, Nat.not_le.mpr h1]
      have ih' := ih t' v' h2
      simp [debRun, hstep, ih', lastOf]

/-- **C6.**  Debounce coalescing: for any `N ≥ 1` calls of the debounced save
that all fall within one debounce window (each call strictly before the
previous call's rescheduled deadline), exactly one backend write happens, and
it carries the value of the last call — earlier scheduled writes are
superseded, not queued.  (`update` on a persistence-enabled cell hands each
new value to this debouncer.) -/
theorem C6_debounce_coalescing {α : Type} (w : Nat) (c : Nat × α)
    (rest : List (Nat × α)) (h : withinWindow w (c :: rest)) :
    debWrites w (c :: rest) = [(lastOf c rest).2] := by
  obtain ⟨t, v⟩ := c
  have hrun := debRun_chain w rest t v h
  simp [debWrites, debRun, debStep, hrun, debFlush]

/-- **C6 witness**: three updates at times 0, 100, 250 inside one 300 ms
window produce the single write `3`. -/
theorem C6_witness :
    debWrites 300 [(0, (1 : Nat)), (100, 2), (250, 3)] = [3] := by
  have h := C6_debounce_coalescing 300 (0, (1 : Nat)) [(100, 2), (250, 3)]
    (by simp [withinWindow])
  simpa [lastOf] using h

/-! ## Claim C8 -/

/-- **C8.**  For every cell with current value `V`: `subscribe(id, cb)`
invokes `cb` exactly once, with `V`, before returning (the invocation list
returned by the embedded `subscribe` is exactly `[(cb, V)]`), and the closure
it returns (`unsubscribe` at the captured id) removes exactly the
subscription registered under that id: afterwards the id maps to nothing,
while every other id's subscription and the cell's value are unchanged. -/
theorem C8_subscribe_replay {T : Type} (c : Cell T) (uid cb : String) :
    (cellSubscribe c uid cb).2 = [(cb, c.value)] ∧
    (cellUnsubscribe (cellSubscribe c uid cb).1 uid).value =
      (cellSubscribe c uid cb).1.value ∧
    lookupEntry (cellUnsubscribe (cellSubscribe c uid cb).1 uid).subs uid = none ∧
    ∀ u : String, u ≠ uid →
      lookupEntry (cellUnsubscribe (cellSubscribe c uid cb).1 uid).subs u =
        lookupEntry (cellSubscribe c uid cb).1.subs u := by
  refine ⟨rfl, rfl, ?_, ?_⟩
  · exact lookupEntry_delEntry_self _ _
  · intro u hu
    exact lookupEntry_delEntry_ne _ _ _ hu

/-- **C8 witness**: the theorem at a cell with value 5 and an existing
subscriber "x", subscribing "y". -/
theorem C8_witness :
    (cellSubscribe (⟨5, [("x", "cbX")]⟩ : Cell Nat) "y" "cbY").2 = [("cbY", 5)] ∧
    lookupEntry
      (cellUnsubscribe (cellSubscribe (⟨5, [("x", "cbX")]⟩ : Cell Nat) "y" "cbY").1 "y").subs
      "y" = none ∧
    lookupEntry
      (cellUnsubscribe (cellSubscribe (⟨5, [("x", "cbX")]⟩ : Cell Nat) "y" "cbY").1 "y").subs
      "x" =
      lookupEntry (cellSubscribe (⟨5, [("x", "cbX")]⟩ : Cell Nat) "y" "cbY").1.subs "x" := by
  have h := C8_subscribe_replay (⟨5, [("x", "cbX")]⟩ : Cell Nat) "y" "cbY"
  exact ⟨h.1, h.2.2.1, h.2.2.2 "x" (by decide)⟩

/-! ## Helper lemmas for the list projection -/

theorem itemKey_inj (key a b : String) (h : itemKey key a = itemKey key b) : a = b := by
  have hd : (key ++ "_item_").data ++ a.data = (key ++ "_item_").data ++ b.data := by
    have h1 := congrArg String.data h
    simpa [itemKey, String.data_append, List.append_assoc] using h1
  exact String.ext (List.append_cancel_left hd)

theorem itemKey_ne (key : String) {a b : String} (h : a ≠ b) :
    itemKey key a ≠ itemKey key b :=
  fun hk => h (itemKey_inj key a b hk)

theorem listFind_map_self {T : Type} (idOf : T → String) (l : List T) (id : String)
    (v : T) (hv : idOf v = id) (x : T)
    (h : listFind idOf (l.map (fun y => if idOf y = id then v else y)) id = some x) :
    x = v := by
  unfold listFind at h
  rw [List.find?_map _ l] at h
  have hpg : ((fun y => decide (idOf y = id)) ∘ (fun y => if idOf y = id then v else y)) =
      fun y => decide (idOf y = id) := by
    funext y
    by_cases hy : idOf y = id <;> simp [hy, hv]
  rw [hpg] at h
  obtain ⟨y, hy, hgy⟩ := Option.map_eq_some'.mp h
  have hpy : idOf y = id := by simpa using List.find?_some hy
  simp [hpy] at hgy
  exact hgy.symm

theorem listFind_map_ne {T : Type} (idOf : T → String) (l : List T) (id id' : String)
    (v : T) (hv : idOf v = id) (hne : id' ≠ id) :
    listFind idOf (l.map (fun y => if idOf y = id then v else y)) id' =
      listFind idOf l id' := by
  unfold listFind
  rw [List.find?_map _ l]
  have hpg : ((fun y => decide (idOf y = id')) ∘ (fun y => if idOf y = id then v else y)) =
      fun y => decide (idOf y = id') := by
    funext y
    by_cases hy : idOf y = id
    · simp [hy, hv, Ne.symm hne, hne]
    · simp [hy]
  rw [hpg]
  cases hf : l.find? (fun y => decide (idOf y = id')) with
  | none => rfl
  | some y =>
      have hpy : idOf y = id' := by simpa using List.find?_some hf
      have hyne : ¬ idOf y = id := by rw [hpy]; exact hne
      simp [hyne]

theorem listFind_filter_self {T : Type} (idOf : T → String) (l : List T) (id : String) :
    listFind idOf (l.filter (fun x => decide (idOf x ≠ id))) id = none := by
  induction l with
  | nil => rfl
  | cons y rest ih =>
      rw [List.filter_cons]
      by_cases hy : idOf y = id
      · rw [show decide (idOf y ≠ id) = false by simp [hy]]
        simpa using ih
      · rw [show decide (idOf y ≠ id) = true by simp [hy]]
        simp only [if_true]
        unfold listFind
        rw [List.find?_cons_of_neg _ (by simp [hy])]
        exact ih

theorem listFind_filter_ne {T : Type} (idOf : T → String) (l : List T) (id id' : String)
    (hne : id' ≠ id) :
    listFind idOf (l.filter (fun x => decide (idOf x ≠ id))) id' = listFind idOf l id' := by
  induction l with
  | nil => rfl
  | cons y rest ih =>
      rw [List.filter_cons]
      by_cases hy : idOf y = id
      · rw [show decide (idOf y ≠ id) = false by simp [hy]]
        simp only [Bool.false_eq_true, if_false]
        rw [ih]
        unfold listFind
        rw [List.find?_cons_of_neg _ (by simp [hy, Ne.symm hne])]
      · rw [show decide (idOf y ≠ id) = true by simp [hy]]
        simp only [if_true]
        unfold listFind
        by_cases hy' : idOf y = id'
        · rw [List.find?_cons_of_pos _ (by simp [hy']),
              List.find?_cons_of_pos _ (by simp [hy'])]
        · rw [List.find?_cons_of_neg _ (by simp [hy']),
              List.find?_cons_of_neg _ (by simp [hy'])]
          exact ih

theorem listFind_append {T : Type} (idOf : T → String) (l₁ l₂ : List T) (id : String) :
    listFind idOf (l₁ ++ l₂) id =
      match listFind idOf l₁ id with
      | some x => some x
      | none => listFind idOf l₂ id := by
  unfold listFind
  rw [List.find?_append]
  cases l₁.find? (fun x => decide (idOf x = id)) <;> simp [Option.or]

theorem listFind_any_true {T : Type} (idOf : T → String) (l : List T) (id : String)
    (x : T) (h : listFind idOf l id = some x) :
    l.any (fun y => decide (idOf y = id)) = true := by
  unfold listFind at h
  have h1 := List.find?_some h
  exact List.any_eq_true.mpr ⟨x, List.mem_of_find?_eq_some h, by simpa using h1⟩

theorem listFind_none_any_false {T : Type} (idOf : T → String) (l : List T) (id : String)
    (h : listFind idOf l id = none) :
    l.any (fun y => decide (idOf y = id)) = false := by
  unfold listFind at h
  rw [List.find?_eq_none] at h
  rw [Bool.eq_false_iff]
  intro hany
  obtain ⟨y, hy, hpy⟩ := List.any_eq_true.mp hany
  exact absurd hpy (by simpa using h y hy)

/-! Frame lemmas: operations that only touch subscriptions or logs preserve
the components `Consistent` depends on. -/

theorem regUpdateCell_lookup_self {T : Type} (reg : List (String × Cell T)) (k : String)
    (v : T) (c : Cell T) (h : lookupEntry reg k = some c) :
    lookupEntry (regUpdateCell reg k v).1 k = some ⟨v, c.subs⟩ := by
  simp [regUpdateCell, h, lookupEntry_setEntry_self]

theorem regUpdateCell_lookup_ne {T : Type} (reg : List (String × Cell T)) (k k' : String)
    (v : T) (h : k' ≠ k) :
    lookupEntry (regUpdateCell reg k v).1 k' = lookupEntry reg k' := by
  unfold regUpdateCell
  cases hk : lookupEntry reg k with
  | none => rfl
  | some c => simp [lookupEntry_setEntry_ne _ _ _ _ h]

theorem regSubscribe_value {T : Type} (reg : List (String × Cell T)) (k uid cb k' : String) :
    (lookupEntry (regSubscribe reg k uid cb).1 k').map (fun c => c.value) =
      (lookupEntry reg k').map (fun c => c.value) := by
  unfold regSubscribe
  cases hk : lookupEntry reg k with
  | none => rfl
  | some c =>
      by_cases h : k' = k
      · subst h
        simp [lookupEntry_setEntry_self, hk]
      · simp [lookupEntry_setEntry_ne _ _ _ _ h]

theorem regGOC_lookup_fresh {T : Type} (reg : List (String × Cell T)) (k : String) (v : T)
    (h : lookupEntry reg k = none) :
    lookupEntry (regGOC reg k v) k = some ⟨v, []⟩ := by
  rw [regGOC]
  rw [h]
  simp only [Option.isSome_none, Bool.false_eq_true, if_false]
  rw [lookupEntry_append, h]
  simp [lookupEntry_cons]

theorem regGOC_lookup_ne {T : Type} (reg : List (String × Cell T)) (k k' : String) (v : T)
    (h : k' ≠ k) :
    lookupEntry (regGOC reg k v) k' = lookupEntry reg k' := by
  rw [regGOC]
  cases hk : lookupEntry reg k with
  | some c => simp
  | none =>
      simp only [Option.isSome_none, Bool.false_eq_true, if_false]
      rw [lookupEntry_append]
      cases hk' : lookupEntry reg k' with
      | some c => rfl
      | none => simp [lookupEntry_cons, lookupEntry_nil, Ne.symm h]

theorem emitEv_components {T : Type} (st : LSF T) (e : LEvent T) :
    (emitEv st e).key = st.key ∧ (emitEv st e).emitEvents = st.emitEvents ∧
    (emitEv st e).mainValue = st.mainValue ∧ (emitEv st e).mainLog = st.mainLog ∧
    (emitEv st e).reg = st.reg ∧ (emitEv st e).itemIds = st.itemIds ∧
    (emitEv st e).pending = st.pending ∧ (emitEv st e).addCbs = st.addCbs ∧
    (emitEv st e).ilog = st.ilog ∧ (emitEv st e).aclog = st.aclog := by
  unfold emitEv
  split <;> simp

theorem actFold_components {T : Type} (id : String) (waiting : List (String × String)) :
    ∀ (st : LSF T),
      (waiting.foldl
        (fun acc p =>
          if id ∈ acc.itemIds then
            let r := regSubscribe acc.reg (itemKey acc.key id) p.1 p.2
            { acc with reg := r.1, ilog := acc.ilog ++ r.2 }
          else acc)
        st).key = st.key ∧
      (waiting.foldl
        (fun acc p =>
          if id ∈ acc.itemIds then
            let r := regSubscribe acc.reg (itemKey acc.key id) p.1 p.2
            { acc with reg := r.1, ilog := acc.ilog ++ r.2 }
          else acc)
        st).emitEvents = st.emitEvents ∧
      (waiting.foldl
        (fun acc p =>
          if id ∈ acc.itemIds then
            let r := regSubscribe acc.reg (itemKey acc.key id) p.1 p.2
            { acc with reg := r.1, ilog := acc.ilog ++ r.2 }
          else acc)
        st).mainValue = st.mainValue ∧
      (waiting.foldl
        (fun acc p =>
          if id ∈ acc.itemIds then
            let r := regSubscribe acc.reg (itemKey acc.key id) p.1 p.2
            { acc with reg := r.1, ilog := acc.ilog ++ r.2 }
          else acc)
        st).mainLog = st.mainLog ∧
      (waiting.foldl
        (fun acc p =>
          if id ∈ acc.itemIds then
            let r := regSubscribe acc.reg (itemKey acc.key id) p.1 p.2
            { acc with reg := r.1, ilog := acc.ilog ++ r.2 }
          else acc)
        st).itemIds = st.itemIds ∧
      (waiting.foldl
        (fun acc p =>
          if id ∈ acc.itemIds then
            let r := regSubscribe acc.reg (itemKey acc.key id) p.1 p.2
            { acc with reg := r.1, ilog := acc.ilog ++ r.2 }
          else acc)
        st).pending = st.pending ∧
      (waiting.foldl
        (fun acc p =>
          if id ∈ acc.itemIds then
            let r := regSubscribe acc.reg (itemKey acc.key id) p.1 p.2
            { acc with reg := r.1, ilog := acc.ilog ++ r.2 }
          else acc)
        st).addCbs = st.addCbs ∧
      (waiting.foldl
        (fun acc p =>
          if id ∈ acc.itemIds then
            let r := regSubscribe acc.reg (itemKey acc.key id) p.1 p.2
            { acc with reg := r.1, ilog := acc.ilog ++ r.2 }
          else acc)
        st).events = st.events ∧
      ∀ k, (lookupEntry
        ((waiting.foldl
          (fun acc p =>
            if id ∈ acc.itemIds then
              let r := regSubscribe acc.reg (itemKey acc.key id) p.1 p.2
              { acc with reg := r.1, ilog := acc.ilog ++ r.2 }
            else acc)
          st).reg) k).map (fun c => c.value) =
        (lookupEntry st.reg k).map (fun c => c.value) := by
  induction waiting with
  | nil => intro st; exact ⟨rfl, rfl, rfl, rfl, rfl, rfl, rfl, rfl, fun _ => rfl⟩
  | cons p rest ih =>
      intro st
      simp only [List.foldl_cons]
      by_cases hmem : id ∈ st.itemIds
      · have ih' := ih { st with
          reg := (regSubscribe st.reg (itemKey st.key id) p.1 p.2).1,
          ilog := st.ilog ++ (regSubscribe st.reg (itemKey st.key id) p.1 p.2).2 }
        rw [if_pos hmem]
        refine ⟨ih'.1, ih'.2.1, ih'.2.2.1, ih'.2.2.2.1, ih'.2.2.2.2.1,
          ih'.2.2.2.2.2.1, ih'.2.2.2.2.2.2.1, ih'.2.2.2.2.2.2.2.1, ?_⟩
        intro k
        exact (ih'.2.2.2.2.2.2.2.2 k).trans (regSubscribe_value st.reg (itemKey st.key id) p.1 p.2 k)
      · rw [if_neg hmem]
        exact ih st

theorem activatePending_components {T : Type} (st : LSF T) (id : String) :
    (activatePending st id).key = st.key ∧
    (activatePending st id).emitEvents = st.emitEvents ∧
    (activatePending st id).mainValue = st.mainValue ∧
    (activatePending st id).mainLog = st.mainLog ∧
    (activatePending st id).itemIds = st.itemIds ∧
    (activatePending st id).addCbs = st.addCbs ∧
    (activatePending st id).events = st.events ∧
    ∀ k, (lookupEntry (activatePending st id).reg k).map (fun c => c.value) =
         (lookupEntry st.reg k).map (fun c => c.value) := by
  unfold activatePending
  cases h : lookupEntry st.pending id with
  | none => exact ⟨rfl, rfl, rfl, rfl, rfl, rfl, rfl, fun _ => rfl⟩
  | some waiting =>
      have hf := actFold_components id waiting st
      exact ⟨hf.1, hf.2.1, hf.2.2.1, hf.2.2.2.1, hf.2.2.2.2.1, hf.2.2.2.2.2.2.1,
        hf.2.2.2.2.2.2.2.1, hf.2.2.2.2.2.2.2.2⟩

/-! ## Claim C3 -/

/-- **C3 (amended).**  Calling `addItem` with an item whose identifier is
already present (in the collection and in the item-flow map) leaves the
collection cell untouched: there is still exactly one element with that id in
`getItems()`, but it is the **old** element, not the one passed to the second
call; the second call's item is pushed only into the per-item cell (so
`getItem` returns it) and an ITEM_UPDATED event is emitted. -/
theorem C3_amended {T : Type} (idOf : T → String) (st : LSF T) (item2 x0 : T)
    (id : String) (c : Cell T) (hid : idOf item2 = id)
    (hMem : id ∈ st.itemIds)
    (hFound : listFind idOf st.mainValue id = some x0)
    (hReg : lookupEntry st.reg (itemKey st.key id) = some c)
    (hEmit : st.emitEvents = true)
    (hCount : st.mainValue.countP (fun y => decide (idOf y = id)) = 1) :
    (addItem idOf st item2).mainValue = st.mainValue ∧
    (addItem idOf st item2).mainValue.countP (fun y => decide (idOf y = id)) = 1 ∧
    listFind idOf (addItem idOf st item2).mainValue id = some x0 ∧
    getItemVal idOf (addItem idOf st item2) id = some item2 ∧
    (addItem idOf st item2).events = st.events ++ [LEvent.itemUpdatedOne item2] := by
  have hAny := listFind_any_true idOf st.mainValue id x0 hFound
  have hbranch : addItem idOf st item2 =
      activatePending
        (emitEv
          { st with
              reg := (regUpdateCell st.reg (itemKey st.key (idOf item2)) item2).1,
              ilog := st.ilog ++ (regUpdateCell st.reg (itemKey st.key (idOf item2)) item2).2 }
          (LEvent.itemUpdatedOne item2))
        (idOf item2) := by
    have hcond : idOf item2 ∈ st.itemIds ∧
        (st.mainValue.any fun x => decide (idOf x = idOf item2)) = true := by
      rw [hid]; exact ⟨hMem, hAny⟩
    simp only [addItem]
    rw [if_pos hcond]
  set stMid := emitEv
    { st with
        reg := (regUpdateCell st.reg (itemKey st.key (idOf item2)) item2).1,
        ilog := st.ilog ++ (regUpdateCell st.reg (itemKey st.key (idOf item2)) item2).2 }
    (LEvent.itemUpdatedOne item2) with hMid
  have hEmitC := emitEv_components
    { st with
        reg := (regUpdateCell st.reg (itemKey st.key (idOf item2)) item2).1,
        ilog := st.ilog ++ (regUpdateCell st.reg (itemKey st.key (idOf item2)) item2).2 }
    (LEvent.itemUpdatedOne item2)
  have hAct := activatePending_components stMid (idOf item2)
  have hKey : (addItem idOf st item2).key = st.key := by
    rw [hbranch]; exact hAct.1.trans hEmitC.1
  have hMain : (addItem idOf st item2).mainValue = st.mainValue := by
    rw [hbranch]; exact hAct.2.2.1.trans hEmitC.2.2.1
  have hIds : (addItem idOf st item2).itemIds = st.itemIds := by
    rw [hbranch]; exact hAct.2.2.2.2.1.trans hEmitC.2.2.2.2.2.1
  refine ⟨hMain, ?_, ?_, ?_, ?_⟩
  · rw [hMain]; exact hCount
  · rw [hMain]; exact hFound
  · unfold getItemVal
    rw [hIds, hKey, if_pos hMem]
    have hval : (lookupEntry (addItem idOf st item2).reg (itemKey st.key id)).map
        (fun c => c.value) =
        (lookupEntry stMid.reg (itemKey st.key id)).map (fun c => c.value) := by
      rw [hbranch]; exact hAct.2.2.2.2.2.2.2 (itemKey st.key id)
    rw [hval, hEmitC.2.2.2.2.1]
    have : lookupEntry
        (regUpdateCell st.reg (itemKey st.key (idOf item2)) item2).1
        (itemKey st.key id) = some ⟨item2, c.subs⟩ := by
      rw [hid]
      exact regUpdateCell_lookup_self st.reg (itemKey st.key id) item2 c hReg
    rw [this]
    rfl
  · rw [hbranch, hAct.2.2.2.2.2.2.1]
    show (emitEv _ _).events = _
    unfold emitEv
    rw [if_pos]
    exact hEmit

/-- **C3, counterexample.**  The spec's §8 scenario: a list created with
`[{id:"1",name:"a"}]` followed by `addItem({id:"1",name:"b"})`.  The claim
says the element with id "1" inside `getItems()` now equals the second item;
in fact `getItems()` still holds the first item (only the per-item cell was
updated). -/
theorem C3_counterexample :
    getItems lsfAB = [itemA] ∧
    listFind Item.id (getItems lsfAB) "1" = some itemA ∧
    itemA ≠ itemB ∧
    getItemVal Item.id lsfAB "1" = some itemB := by
  refine ⟨?_, ?_, by decide, ?_⟩ <;> rfl

/-- **C3 witness**: the amended theorem applied to the concrete §8
scenario. -/
theorem C3_witness :
    (addItem Item.id (mkLSF Item.id "list" [itemA]) itemB).mainValue =
      (mkLSF Item.id "list" [itemA]).mainValue ∧
    listFind Item.id (addItem Item.id (mkLSF Item.id "list" [itemA]) itemB).mainValue "1" =
      some itemA ∧
    getItemVal Item.id (addItem Item.id (mkLSF Item.id "list" [itemA]) itemB) "1" =
      some itemB ∧
    (addItem Item.id (mkLSF Item.id "list" [itemA]) itemB).events =
      (mkLSF Item.id "list" [itemA]).events ++ [LEvent.itemUpdatedOne itemB] := by
  have h := C3_amended Item.id (mkLSF Item.id "list" [itemA]) itemB itemA "1"
    ⟨itemA, []⟩ rfl (by decide) (by decide) (by decide) (by decide) (by decide)
  exact ⟨h.1, h.2.2.1, h.2.2.2.1, h.2.2.2.2⟩

/-! ## Consistency preservation lemmas -/

theorem consistent_transfer_val {T : Type} (idOf : T → String) (st₁ st₂ : LSF T)
    (hk : st₂.key = st₁.key) (hm : st₂.mainValue = st₁.mainValue)
    (hi : st₂.itemIds = st₁.itemIds)
    (hr : ∀ k, (lookupEntry st₂.reg k).map (fun c => c.value) =
               (lookupEntry st₁.reg k).map (fun c => c.value))
    (h : Consistent idOf st₁) : Consistent idOf st₂ := by
  intro id x hf
  unfold getItemVal
  rw [hk, hi, hm]
  rw [hm] at hf
  have h2 := h id x hf
  unfold getItemVal at h2
  by_cases hmem : id ∈ st₁.itemIds
  · rw [if_pos hmem] at h2 ⊢
    rw [hr (itemKey st₁.key id)]
    exact h2
  · rw [if_neg hmem] at h2 ⊢
    exact h2

theorem consistent_of_parts {T : Type} (idOf : T → String) (stF : LSF T)
    (key0 : String) (mv : List T) (ids : List String) (reg0 : List (String × Cell T))
    (hkey : stF.key = key0) (hmv : stF.mainValue = mv) (hids : stF.itemIds = ids)
    (hreg : stF.reg = reg0)
    (h : ∀ id x, listFind idOf mv id = some x →
        (if id ∈ ids then (lookupEntry reg0 (itemKey key0 id)).map (fun c => c.value)
         else listFind idOf mv id) = some x) :
    Consistent idOf stF := by
  intro id x hf
  unfold getItemVal
  rw [hkey, hmv, hids, hreg]
  rw [hmv] at hf
  exact h id x hf

theorem consistent_parts_of {T : Type} (idOf : T → String) (st : LSF T)
    (h : Consistent idOf st) :
    ∀ id x, listFind idOf st.mainValue id = some x →
      (if id ∈ st.itemIds then
        (lookupEntry st.reg (itemKey st.key id)).map (fun c => c.value)
       else listFind idOf st.mainValue id) = some x := by
  intro id x hf
  have h2 := h id x hf
  unfold getItemVal at h2
  exact h2

theorem updateItem_consistent {T : Type} (idOf : T → String) (st : LSF T)
    (hC : Consistent idOf st) (id : String) (f : T → T)
    (hf : ∀ v, idOf (f v) = id) :
    Consistent idOf (updateItem idOf st id f) := by
  by_cases hmem : id ∈ st.itemIds
  · cases hreg : lookupEntry st.reg (itemKey st.key id) with
    | none =>
        have heq : updateItem idOf st id f = st := by
          unfold updateItem
          rw [if_pos hmem, hreg]
        rw [heq]; exact hC
    | some c =>
        have heq : updateItem idOf st id f =
            mainUpdate
              { st with
                  reg := (regUpdateCell st.reg (itemKey st.key id) (f c.value)).1,
                  ilog := st.ilog ++ (regUpdateCell st.reg (itemKey st.key id) (f c.value)).2 }
              (st.mainValue.map (fun x => if idOf x = id then f c.value else x)) := by
          unfold updateItem
          rw [if_pos hmem, hreg]
        have hv : idOf (f c.value) = id := hf c.value
        refine consistent_of_parts idOf _ st.key
          (st.mainValue.map (fun x => if idOf x = id then f c.value else x))
          st.itemIds (regUpdateCell st.reg (itemKey st.key id) (f c.value)).1
          (by rw [heq]; rfl) (by rw [heq]; rfl) (by rw [heq]; rfl) (by rw [heq]; rfl) ?_
        intro id' x hfind
        by_cases hid' : id' = id
        · subst hid'
          have hx : x = f c.value :=
            listFind_map_self idOf st.mainValue id' (f c.value) hv x hfind
          subst hx
          rw [if_pos hmem,
            regUpdateCell_lookup_self st.reg (itemKey st.key id') (f c.value) c hreg]
          rfl
        · have hfind' : listFind idOf st.mainValue id' = some x := by
            rw [← listFind_map_ne idOf st.mainValue id id' (f c.value) hv hid']
            exact hfind
          have h2 := consistent_parts_of idOf st hC id' x hfind'
          by_cases hmem' : id' ∈ st.itemIds
          · rw [if_pos hmem'] at h2 ⊢
            rw [regUpdateCell_lookup_ne st.reg (itemKey st.key id) (itemKey st.key id')
              (f c.value) (itemKey_ne st.key hid')]
            exact h2
          · rw [if_neg hmem']
            exact hfind
  · have heq : updateItem idOf st id f = st := by
      unfold updateItem
      rw [if_neg hmem]
    rw [heq]; exact hC

theorem removeItem_consistent {T : Type} (idOf : T → String) (st : LSF T)
    (hC : Consistent idOf st) (id : String) :
    Consistent idOf (removeItem idOf st id) := by
  have hparts : ∀ id' x,
      listFind idOf (st.mainValue.filter (fun x => decide (idOf x ≠ id))) id' = some x →
      (if id' ∈ st.itemIds.filter (fun i => decide (i ≠ id)) then
        (lookupEntry st.reg (itemKey st.key id')).map (fun c => c.value)
       else listFind idOf (st.mainValue.filter (fun x => decide (idOf x ≠ id))) id') =
        some x := by
    intro id' x hfind
    by_cases hid' : id' = id
    · subst hid'
      rw [listFind_filter_self] at hfind
      exact absurd hfind (by simp)
    · have hfind' : listFind idOf st.mainValue id' = some x := by
        rw [← listFind_filter_ne idOf st.mainValue id id' hid']
        exact hfind
      have h2 := consistent_parts_of idOf st hC id' x hfind'
      by_cases hmem : id' ∈ st.itemIds
      · have hmem' : id' ∈ st.itemIds.filter (fun i => decide (i ≠ id)) := by
          rw [List.mem_filter]
          exact ⟨hmem, by simpa using hid'⟩
        rw [if_pos hmem']
        rw [if_pos hmem] at h2
        exact h2
      · have hmem' : id' ∉ st.itemIds.filter (fun i => decide (i ≠ id)) := by
          rw [List.mem_filter]
          intro hcon
          exact hmem hcon.1
        rw [if_neg hmem']
        exact hfind
  cases hrem : listFind idOf st.mainValue id with
  | none =>
      have heq : removeItem idOf st id =
          mainUpdate { st with itemIds := st.itemIds.filter (fun i => decide (i ≠ id)) }
            (st.mainValue.filter (fun x => decide (idOf x ≠ id))) := by
        simp only [removeItem]
        rw [hrem]
      exact consistent_of_parts idOf _ st.key
        (st.mainValue.filter (fun x => decide (idOf x ≠ id)))
        (st.itemIds.filter (fun i => decide (i ≠ id))) st.reg
        (by rw [heq]; rfl) (by rw [heq]; rfl) (by rw [heq]; rfl) (by rw [heq]; rfl) hparts
  | some x0 =>
      have heq : removeItem idOf st id =
          emitEv
            (mainUpdate { st with itemIds := st.itemIds.filter (fun i => decide (i ≠ id)) }
              (st.mainValue.filter (fun x => decide (idOf x ≠ id))))
            (LEvent.itemRemoved x0) := by
        simp only [removeItem]
        rw [hrem]
      have hc := emitEv_components
        (mainUpdate { st with itemIds := st.itemIds.filter (fun i => decide (i ≠ id)) }
          (st.mainValue.filter (fun x => decide (idOf x ≠ id))))
        (LEvent.itemRemoved x0)
      exact consistent_of_parts idOf _ st.key
        (st.mainValue.filter (fun x => decide (idOf x ≠ id)))
        (st.itemIds.filter (fun i => decide (i ≠ id))) st.reg
        (by rw [heq, hc.1]; rfl) (by rw [heq, hc.2.2.1]; rfl) (by rw [heq, hc.2.2.2.2.2.1]; rfl)
        (by rw [heq, hc.2.2.2.2.1]; rfl) hparts

theorem addItem_fresh_consistent {T : Type} (idOf : T → String) (st : LSF T)
    (hC : Consistent idOf st) (item : T)
    (hFlow : idOf item ∉ st.itemIds)
    (hNotIn : listFind idOf st.mainValue (idOf item) = none)
    (hRegN : lookupEntry st.reg (itemKey st.key (idOf item)) = none) :
    Consistent idOf (addItem idOf st item) := by
  have hAnyF : (st.mainValue.any fun x => decide (idOf x = idOf item)) = false :=
    listFind_none_any_false idOf st.mainValue (idOf item) hNotIn
  have hcond : ¬ (idOf item ∈ st.itemIds ∧
      (st.mainValue.any fun x => decide (idOf x = idOf item)) = true) := by
    intro hcon
    exact hFlow hcon.1
  have heq : addItem idOf st item =
      activatePending
        (emitEv
          { st with
              reg := regGOC st.reg (itemKey st.key (idOf item)) item,
              itemIds := setIdList st.itemIds (idOf item),
              mainValue := st.mainValue ++ [item],
              mainLog := st.mainLog ++ [st.mainValue ++ [item]],
              aclog := st.aclog ++ st.addCbs.map (fun p => (p.2, item)) }
          (LEvent.itemAddedOne item))
        (idOf item) := by
    simp only [addItem]
    rw [if_neg hcond]
    rfl
  have hSet : setIdList st.itemIds (idOf item) = st.itemIds ++ [idOf item] := by
    unfold setIdList
    rw [if_neg hFlow]
  have hcore : Consistent idOf
      ({ st with
          reg := regGOC st.reg (itemKey st.key (idOf item)) item,
          itemIds := setIdList st.itemIds (idOf item),
          mainValue := st.mainValue ++ [item],
          mainLog := st.mainLog ++ [st.mainValue ++ [item]],
          aclog := st.aclog ++ st.addCbs.map (fun p => (p.2, item)) } : LSF T) := by
    refine consistent_of_parts idOf _ st.key (st.mainValue ++ [item])
      (setIdList st.itemIds (idOf item))
      (regGOC st.reg (itemKey st.key (idOf item)) item) rfl rfl rfl rfl ?_
    intro id' x hfind
    rw [listFind_append] at hfind
    by_cases hid' : id' = idOf item
    · rw [hid', hNotIn] at hfind
      have hfind2 : listFind idOf [item] (idOf item) = some x := hfind
      have hone : listFind idOf [item] (idOf item) = some item := by
        unfold listFind
        rw [List.find?_cons_of_pos _ (by simp)]
      rw [hone] at hfind2
      have hx : x = item := (Option.some.inj hfind2).symm
      have hmem' : idOf item ∈ setIdList st.itemIds (idOf item) := by
        rw [hSet]
        exact List.mem_append_right _ (List.mem_singleton.mpr rfl)
      rw [hid', hx, if_pos hmem',
        regGOC_lookup_fresh st.reg (itemKey st.key (idOf item)) item hRegN]
      rfl
    · cases hl : listFind idOf st.mainValue id' with
      | none =>
          rw [hl] at hfind
          have hnone : listFind idOf [item] id' = none := by
            unfold listFind
            rw [List.find?_cons_of_neg _ (by simp [Ne.symm hid'])]
            rfl
          rw [hnone] at hfind
          exact absurd hfind (by simp)
      | some y =>
          rw [hl] at hfind
          have hx : x = y := by
            cases hfind
            rfl
          subst hx
          have h2 := consistent_parts_of idOf st hC id' x hl
          by_cases hmem' : id' ∈ st.itemIds
          · have hmem'' : id' ∈ setIdList st.itemIds (idOf item) := by
              rw [hSet]
              exact List.mem_append_left _ hmem'
            rw [if_pos hmem'']
            rw [if_pos hmem'] at h2
            rw [regGOC_lookup_ne st.reg (itemKey st.key (idOf item)) (itemKey st.key id')
              item (itemKey_ne st.key hid')]
            exact h2
          · have hmem'' : id' ∉ setIdList st.itemIds (idOf item) := by
              rw [hSet]
              intro hcon
              rcases List.mem_append.mp hcon with h1 | h1
              · exact hmem' h1
              · exact hid' (List.mem_singleton.mp h1)
            rw [if_neg hmem'']
            rw [listFind_append, hl]
  rw [heq]
  have hEc := emitEv_components
    { st with
        reg := regGOC st.reg (itemKey st.key (idOf item)) item,
        itemIds := setIdList st.itemIds (idOf item),
        mainValue := st.mainValue ++ [item],
        mainLog := st.mainLog ++ [st.mainValue ++ [item]],
        aclog := st.aclog ++ st.addCbs.map (fun p => (p.2, item)) }
    (LEvent.itemAddedOne item)
  have hAc := activatePending_components
    (emitEv
      { st with
          reg := regGOC st.reg (itemKey st.key (idOf item)) item,
          itemIds := setIdList st.itemIds (idOf item),
          mainValue := st.mainValue ++ [item],
          mainLog := st.mainLog ++ [st.mainValue ++ [item]],
          aclog := st.aclog ++ st.addCbs.map (fun p => (p.2, item)) }
      (LEvent.itemAddedOne item))
    (idOf item)
  refine consistent_transfer_val idOf _ _ ?_ ?_ ?_ ?_
    (consistent_transfer_val idOf _ _ hEc.1 hEc.2.2.1 hEc.2.2.2.2.2.1
      (fun k => by rw [hEc.2.2.2.2.1]) hcore)
  · exact hAc.1
  · exact hAc.2.2.1
  · exact hAc.2.2.2.2.1
  · exact hAc.2.2.2.2.2.2.2

theorem batchStep_inv {T : Type} (idOf : T → String) (st : LSF T)
    (acc : LSF T × List T) (u : String × (T → T)) (hu : ∀ v, idOf (u.2 v) = u.1)
    (h : batchInv idOf st acc) : batchInv idOf st (batchStep idOf acc u) := by
  obtain ⟨hkey, hids, hreg⟩ := h
  by_cases hmem : u.1 ∈ acc.1.itemIds
  · cases hlook : lookupEntry acc.1.reg (itemKey acc.1.key u.1) with
    | none =>
        have heq : batchStep idOf acc u = acc := by
          unfold batchStep
          rw [if_pos hmem, hlook]
        rw [heq]
        exact ⟨hkey, hids, hreg⟩
    | some c =>
        have heq : batchStep idOf acc u =
            ({ acc.1 with
                reg := (regUpdateCell acc.1.reg (itemKey acc.1.key u.1) (u.2 c.value)).1,
                ilog := acc.1.ilog ++
                  (regUpdateCell acc.1.reg (itemKey acc.1.key u.1) (u.2 c.value)).2 },
             acc.2.map (fun x => if idOf x = u.1 then u.2 c.value else x)) := by
          unfold batchStep
          rw [if_pos hmem, hlook]
        rw [heq]
        refine ⟨hkey, hids, ?_⟩
        intro id x hmemS hfind
        have hv : idOf (u.2 c.value) = u.1 := hu c.value
        show (lookupEntry
          (regUpdateCell acc.1.reg (itemKey acc.1.key u.1) (u.2 c.value)).1
          (itemKey st.key id)).map (fun c => c.value) = some x
    -- fall through cases on whether this entry targets id
        by_cases hid : id = u.1
        · rw [hid] at hfind
          have hx : x = u.2 c.value :=
            listFind_map_self idOf acc.2 u.1 (u.2 c.value) hv x hfind
          rw [hid, hx]
          rw [show itemKey st.key u.1 = itemKey acc.1.key u.1 by rw [hkey]]
          rw [regUpdateCell_lookup_self _ _ _ c hlook]
          rfl
        · have hfind' : listFind idOf acc.2 id = some x := by
            rw [← listFind_map_ne idOf acc.2 u.1 id (u.2 c.value) hv hid]
            exact hfind
          have h2 := hreg id x hmemS hfind'
          rw [show itemKey st.key id = itemKey acc.1.key id by rw [hkey]] at h2 ⊢
          rw [regUpdateCell_lookup_ne acc.1.reg (itemKey acc.1.key u.1)
            (itemKey acc.1.key id) (u.2 c.value) (itemKey_ne acc.1.key hid)]
          exact h2
  · have heq : batchStep idOf acc u = acc := by
      unfold batchStep
      rw [if_neg hmem]
    rw [heq]
    exact ⟨hkey, hids, hreg⟩

theorem batchFold_inv {T : Type} (idOf : T → String) (st : LSF T) :
    ∀ (us : List (String × (T → T))) (acc : LSF T × List T),
      (∀ u ∈ us, ∀ v, idOf (u.2 v) = u.1) → batchInv idOf st acc →
      batchInv idOf st (us.foldl (batchStep idOf) acc) := by
  intro us
  induction us with
  | nil => intro acc _ h; exact h
  | cons u rest ih =>
      intro acc hus h
      rw [List.foldl_cons]
      exact ih (batchStep idOf acc u)
        (fun u' hu' => hus u' (List.mem_cons_of_mem _ hu'))
        (batchStep_inv idOf st acc u (hus u (List.mem_cons_self _ _)) h)

theorem batchUpdate_consistent {T : Type} (idOf : T → String) (st : LSF T)
    (hC : Consistent idOf st) (us : List (String × (T → T)))
    (hus : ∀ u ∈ us, ∀ v, idOf (u.2 v) = u.1) :
    Consistent idOf (batchUpdate idOf st us) := by
  have hinv0 : batchInv idOf st (st, st.mainValue) := by
    refine ⟨rfl, rfl, ?_⟩
    intro id x hm hf
    have h2 := consistent_parts_of idOf st hC id x hf
    rw [if_pos hm] at h2
    exact h2
  have hinv := batchFold_inv idOf st us (st, st.mainValue) hus hinv0
  obtain ⟨hkey, hids, hreg⟩ := hinv
  refine consistent_of_parts idOf _ st.key
    (us.foldl (batchStep idOf) (st, st.mainValue)).2 st.itemIds
    (us.foldl (batchStep idOf) (st, st.mainValue)).1.reg
    ?_ ?_ ?_ ?_ ?_
  · exact hkey
  · rfl
  · exact hids
  · rfl
  · intro id x hfind
    by_cases hmem : id ∈ st.itemIds
    · rw [if_pos hmem]
      exact hreg id x hmem hfind
    · rw [if_neg hmem]
      exact hfind

/-! ## `addItems` on a batch of fresh items -/

theorem regSubscribe_lookup_ne {T : Type} (reg : List (String × Cell T))
    (k uid cb k' : String) (h : k' ≠ k) :
    lookupEntry (regSubscribe reg k uid cb).1 k' = lookupEntry reg k' := by
  unfold regSubscribe
  cases hk : lookupEntry reg k with
  | none => rfl
  | some c => simp [lookupEntry_setEntry_ne _ _ _ _ h]

theorem actFold_lookup_ne {T : Type} (id : String) (waiting : List (String × String)) :
    ∀ (st : LSF T) (k : String), k ≠ itemKey st.key id →
      lookupEntry
        ((waiting.foldl
          (fun acc p =>
            if id ∈ acc.itemIds then
              let r := regSubscribe acc.reg (itemKey acc.key id) p.1 p.2
              { acc with reg := r.1, ilog := acc.ilog ++ r.2 }
            else acc)
          st).reg) k = lookupEntry st.reg k := by
  induction waiting with
  | nil => intro st k _; rfl
  | cons p rest ih =>
      intro st k hk
      simp only [List.foldl_cons]
      by_cases hmem : id ∈ st.itemIds
      · rw [if_pos hmem]
        have ih' := ih { st with
          reg := (regSubscribe st.reg (itemKey st.key id) p.1 p.2).1,
          ilog := st.ilog ++ (regSubscribe st.reg (itemKey st.key id) p.1 p.2).2 } k hk
        rw [ih']
        exact regSubscribe_lookup_ne st.reg (itemKey st.key id) p.1 p.2 k hk
      · rw [if_neg hmem]
        exact ih st k hk

theorem activatePending_lookup_ne {T : Type} (st : LSF T) (id k : String)
    (hk : k ≠ itemKey st.key id) :
    lookupEntry (activatePending st id).reg k = lookupEntry st.reg k := by
  unfold activatePending
  cases h : lookupEntry st.pending id with
  | none => rfl
  | some waiting => exact actFold_lookup_ne id waiting st k hk

theorem addItemsStep_inv {T : Type} (idOf : T → String) (st : LSF T) (done : List T)
    (acc : LSF T × List T × List T × List T) (item : T)
    (hinv : addItemsInv idOf st done acc)
    (hFlow : idOf item ∉ st.itemIds)
    (hNotIn : listFind idOf st.mainValue (idOf item) = none)
    (hRegN : lookupEntry st.reg (itemKey st.key (idOf item)) = none)
    (hNotDone : idOf item ∉ done.map idOf) :
    addItemsInv idOf st (done ++ [item]) (addItemsStep idOf acc item) := by
  obtain ⟨A1, A2, A3, A4, A5, A6, A7⟩ := hinv
  have hfindIdx : acc.2.1.findIdx? (fun x => decide (idOf x = idOf item)) = none := by
    rw [A3, List.findIdx?_eq_none_iff]
    intro x hx
    rcases List.mem_append.mp hx with hx | hx
    · unfold listFind at hNotIn
      rw [List.find?_eq_none] at hNotIn
      simpa using hNotIn x hx
    · simp only [decide_eq_false_iff_not]
      intro hcon
      exact hNotDone (hcon ▸ List.mem_map_of_mem idOf hx)
  have heq : addItemsStep idOf acc item =
      (activatePending
        { acc.1 with
            reg := regGOC acc.1.reg (itemKey acc.1.key (idOf item)) item,
            itemIds := setIdList acc.1.itemIds (idOf item) }
        (idOf item),
       acc.2.1 ++ [item], acc.2.2.1 ++ [item], acc.2.2.2) := by
    simp only [addItemsStep]
    rw [hfindIdx]
  have hKeyMid : ({ acc.1 with
      reg := regGOC acc.1.reg (itemKey acc.1.key (idOf item)) item,
      itemIds := setIdList acc.1.itemIds (idOf item) } : LSF T).key = st.key := A1
  have hRegAcc : lookupEntry acc.1.reg (itemKey st.key (idOf item)) = none := by
    rw [A6 (itemKey st.key (idOf item)) ?_]
    · exact hRegN
    · intro y hy hcon
      exact hNotDone ((itemKey_inj st.key _ _ hcon) ▸ List.mem_map_of_mem idOf hy)
  have hNotAcc : idOf item ∉ acc.1.itemIds := by
    rw [A2]
    intro hcon
    rcases List.mem_append.mp hcon with h1 | h1
    · exact hFlow h1
    · exact hNotDone h1
  have hSet : setIdList acc.1.itemIds (idOf item) = acc.1.itemIds ++ [idOf item] := by
    unfold setIdList
    rw [if_neg hNotAcc]
  have hAc := activatePending_components
    ({ acc.1 with
        reg := regGOC acc.1.reg (itemKey acc.1.key (idOf item)) item,
        itemIds := setIdList acc.1.itemIds (idOf item) } : LSF T) (idOf item)
  rw [heq]
  refine ⟨hAc.1.trans A1, ?_, ?_, ?_, A5, ?_, ?_⟩
  · rw [hAc.2.2.2.2.1]
    show setIdList acc.1.itemIds (idOf item) = _
    rw [hSet, A2, List.map_append, List.append_assoc]
    rfl
  · show acc.2.1 ++ [item] = _
    rw [A3, List.append_assoc]
  · show acc.2.2.1 ++ [item] = _
    rw [A4]
  · intro k hkAvoid
    have hkItem : k ≠ itemKey st.key (idOf item) :=
      hkAvoid item (List.mem_append_right _ (List.mem_singleton.mpr rfl))
    have h1 := activatePending_lookup_ne
      ({ acc.1 with
          reg := regGOC acc.1.reg (itemKey acc.1.key (idOf item)) item,
          itemIds := setIdList acc.1.itemIds (idOf item) } : LSF T) (idOf item) k
      (by rw [show ({ acc.1 with
          reg := regGOC acc.1.reg (itemKey acc.1.key (idOf item)) item,
          itemIds := setIdList acc.1.itemIds (idOf item) } : LSF T).key = st.key from A1]
          exact hkItem)
    rw [h1]
    show lookupEntry (regGOC acc.1.reg (itemKey acc.1.key (idOf item)) item) k = _
    rw [show itemKey acc.1.key (idOf item) = itemKey st.key (idOf item) by rw [A1]]
    rw [regGOC_lookup_ne acc.1.reg (itemKey st.key (idOf item)) k item hkItem]
    exact A6 k (fun y hy => hkAvoid y (List.mem_append_left _ hy))
  · intro y hy
    have hval := hAc.2.2.2.2.2.2.2 (itemKey st.key (idOf y))
    rw [hval]
    show (lookupEntry (regGOC acc.1.reg (itemKey acc.1.key (idOf item)) item)
      (itemKey st.key (idOf y))).map (fun c => c.value) = some y
    rw [show itemKey acc.1.key (idOf item) = itemKey st.key (idOf item) by rw [A1]]
    rcases List.mem_append.mp hy with hyd | hyi
    · have hne : itemKey st.key (idOf y) ≠ itemKey st.key (idOf item) := by
        intro hcon
        exact hNotDone ((itemKey_inj st.key _ _ hcon) ▸ List.mem_map_of_mem idOf hyd)
      rw [regGOC_lookup_ne acc.1.reg (itemKey st.key (idOf item))
        (itemKey st.key (idOf y)) item hne]
      exact A7 y hyd
    · have hyItem : y = item := List.mem_singleton.mp hyi
      subst hyItem
      rw [regGOC_lookup_fresh acc.1.reg (itemKey st.key (idOf y)) y hRegAcc]
      rfl

theorem addItemsFold_inv {T : Type} (idOf : T → String) (st : LSF T) :
    ∀ (remaining done : List T) (acc : LSF T × List T × List T × List T),
      (∀ y ∈ remaining, idOf y ∉ st.itemIds ∧
          listFind idOf st.mainValue (idOf y) = none ∧
          lookupEntry st.reg (itemKey st.key (idOf y)) = none) →
      ((done ++ remaining).map idOf).Nodup →
      addItemsInv idOf st done acc →
      addItemsInv idOf st (done ++ remaining)
        (remaining.foldl (addItemsStep idOf) acc) := by
  intro remaining
  induction remaining with
  | nil => intro done acc _ _ h; simpa using h
  | cons item rest ih =>
      intro done acc hfresh hnd hinv
      have hNotDone : idOf item ∉ done.map idOf := by
        intro hcon
        rw [List.map_append] at hnd
        exact List.disjoint_of_nodup_append hnd hcon
          (List.mem_map_of_mem idOf (List.mem_cons_self _ _))
      have hf := hfresh item (List.mem_cons_self _ _)
      have hstep := addItemsStep_inv idOf st done acc item hinv hf.1 hf.2.1 hf.2.2 hNotDone
      rw [List.foldl_cons]
      have hih := ih (done ++ [item]) (addItemsStep idOf acc item)
        (fun y hy => hfresh y (List.mem_cons_of_mem _ hy))
        (by rw [List.append_cons] at hnd; exact hnd) hstep
      rw [List.append_cons]
      exact hih

theorem addItems_fresh_consistent {T : Type} (idOf : T → String) (st : LSF T)
    (hC : Consistent idOf st) (items : List T) (hne : items ≠ [])
    (hfresh : ∀ y ∈ items, idOf y ∉ st.itemIds ∧
        listFind idOf st.mainValue (idOf y) = none ∧
        lookupEntry st.reg (itemKey st.key (idOf y)) = none)
    (hnd : (items.map idOf).Nodup) :
    Consistent idOf (addItems idOf st items) := by
  have hinv0 : addItemsInv idOf st [] (st, st.mainValue, [], []) := by
    refine ⟨rfl, by simp, by simp, rfl, rfl, fun k _ => rfl, by simp⟩
  have hinv := addItemsFold_inv idOf st items [] (st, st.mainValue, [], [])
    hfresh (by simpa using hnd) hinv0
  simp only [List.nil_append] at hinv
  obtain ⟨A1, A2, A3, A4, A5, A6, A7⟩ := hinv
  have hEmptyF : items.isEmpty = false := by
    cases items with
    | nil => exact absurd rfl hne
    | cons a l => rfl
  have hAddedF : (items.foldl (addItemsStep idOf) (st, st.mainValue, [], [])).2.2.1.isEmpty
      = false := by
    rw [A4]
    exact hEmptyF
  have hUpdT : (items.foldl (addItemsStep idOf) (st, st.mainValue, [], [])).2.2.2.isEmpty
      = true := by
    rw [A5]
    rfl
  have heq : addItems idOf st items =
      emitEv
        { (mainUpdate (items.foldl (addItemsStep idOf) (st, st.mainValue, [], [])).1
            (items.foldl (addItemsStep idOf) (st, st.mainValue, [], [])).2.1) with
          aclog := (mainUpdate
              (items.foldl (addItemsStep idOf) (st, st.mainValue, [], [])).1
              (items.foldl (addItemsStep idOf) (st, st.mainValue, [], [])).2.1).aclog ++
            (((items.foldl (addItemsStep idOf) (st, st.mainValue, [], [])).2.2.1).map
              (fun item => (mainUpdate
                (items.foldl (addItemsStep idOf) (st, st.mainValue, [], [])).1
                (items.foldl (addItemsStep idOf) (st, st.mainValue, [], [])).2.1).addCbs.map
                  (fun p => (p.2, item)))).flatten }
        (LEvent.itemAddedMany
          (items.foldl (addItemsStep idOf) (st, st.mainValue, [], [])).2.2.1) := by
    simp only [addItems]
    rw [if_neg (by rw [hEmptyF]; exact Bool.false_ne_true)]
    rw [if_pos hUpdT]
    rw [if_neg (by rw [hAddedF]; exact Bool.false_ne_true)]
  rw [heq]
  have hcore : Consistent idOf
      (mainUpdate (items.foldl (addItemsStep idOf) (st, st.mainValue, [], [])).1
        (items.foldl (addItemsStep idOf) (st, st.mainValue, [], [])).2.1) := by
    refine consistent_of_parts idOf _ st.key (st.mainValue ++ items)
      (st.itemIds ++ items.map idOf)
      (items.foldl (addItemsStep idOf) (st, st.mainValue, [], [])).1.reg
      A1 (by rw [show (mainUpdate _ _).mainValue =
        (items.foldl (addItemsStep idOf) (st, st.mainValue, [], [])).2.1 from rfl, A3])
      A2 rfl ?_
    intro id' x hfind
    rw [listFind_append] at hfind
    cases hl : listFind idOf st.mainValue id' with
    | some y =>
        rw [hl] at hfind
        have hx : x = y := (Option.some.inj hfind).symm
        subst hx
        have hid'NotItems : id' ∉ items.map idOf := by
          intro hcon
          obtain ⟨y', hy', hyid⟩ := List.mem_map.mp hcon
          have h3 := (hfresh y' hy').2.1
          rw [hyid] at h3
          exact Option.noConfusion (hl.symm.trans h3)
        by_cases hmem : id' ∈ st.itemIds
        · rw [if_pos (List.mem_append_left _ hmem)]
          rw [A6 (itemKey st.key id') (fun y' hy' hcon =>
            hid'NotItems ((itemKey_inj st.key _ _ hcon) ▸ List.mem_map_of_mem idOf hy'))]
          have h2 := consistent_parts_of idOf st hC id' x hl
          rw [if_pos hmem] at h2
          exact h2
        · rw [if_neg (fun hcon => by
            rcases List.mem_append.mp hcon with h1 | h1
            · exact hmem h1
            · exact hid'NotItems h1)]
          rw [listFind_append, hl]
    | none =>
        rw [hl] at hfind
        have hxmem : x ∈ items := by
          unfold listFind at hfind
          exact List.mem_of_find?_eq_some hfind
        have hxid : idOf x = id' := by
          unfold listFind at hfind
          simpa using List.find?_some hfind
        rw [if_pos (List.mem_append_right _ (hxid ▸ List.mem_map_of_mem idOf hxmem))]
        have h7 := A7 x hxmem
        rw [hxid] at h7
        exact h7
  have hEc := emitEv_components
    { (mainUpdate (items.foldl (addItemsStep idOf) (st, st.mainValue, [], [])).1
        (items.foldl (addItemsStep idOf) (st, st.mainValue, [], [])).2.1) with
      aclog := (mainUpdate
          (items.foldl (addItemsStep idOf) (st, st.mainValue, [], [])).1
          (items.foldl (addItemsStep idOf) (st, st.mainValue, [], [])).2.1).aclog ++
        (((items.foldl (addItemsStep idOf) (st, st.mainValue, [], [])).2.2.1).map
          (fun item => (mainUpdate
            (items.foldl (addItemsStep idOf) (st, st.mainValue, [], [])).1
            (items.foldl (addItemsStep idOf) (st, st.mainValue, [], [])).2.1).addCbs.map
              (fun p => (p.2, item)))).flatten }
    (LEvent.itemAddedMany
      (items.foldl (addItemsStep idOf) (st, st.mainValue, [], [])).2.2.1)
  exact consistent_transfer_val idOf _ _ hEc.1 hEc.2.2.1 hEc.2.2.2.2.2.1
    (fun k => by rw [hEc.2.2.2.2.1]) hcore

/-! ## Claim C4 -/

/-- **C4, counterexample.**  The claim asserts list/item consistency after
*any* single mutating operation, `addItem` included.  After
`addItem({id:"1",name:"b"})` on a list holding `{id:"1",name:"a"}`, the
collection cell still holds the old item while the per-item cell holds the
new one: the invariant is broken. -/
theorem C4_counterexample : ¬ Consistent Item.id lsfAB := by
  intro h
  have h1 := h "1" itemA (by rfl)
  have h2 : getItemVal Item.id lsfAB "1" = some itemB := by rfl
  exact absurd (Option.some.inj (h2.symm.trans h1)) (by decide)

/-- **C4 (amended).**  From a consistent state, list/item consistency is
preserved by `updateItem` (for an identifier-preserving updater), by
`removeItem`, by `batchUpdate` (identifier-preserving updaters), by `addItem`
of an item whose identifier is absent from the flow map, the collection and
the global registry, and by `addItems` of a non-empty batch of
pairwise-distinct such items.  It is **not** preserved by `addItem` on an
already-present identifier (the collection cell is skipped — the
counterexample) nor, in general, by `updateItems` (whose
`initializeItemFlows` reuses stale registry cells, ignoring the new
values). -/
theorem C4_amended {T : Type} (idOf : T → String) (st : LSF T)
    (hC : Consistent idOf st) :
    (∀ id f, (∀ v, idOf (f v) = id) → Consistent idOf (updateItem idOf st id f)) ∧
    (∀ id, Consistent idOf (removeItem idOf st id)) ∧
    (∀ us, (∀ u ∈ us, ∀ v, idOf (u.2 v) = u.1) →
      Consistent idOf (batchUpdate idOf st us)) ∧
    (∀ item, idOf item ∉ st.itemIds →
      listFind idOf st.mainValue (idOf item) = none →
      lookupEntry st.reg (itemKey st.key (idOf item)) = none →
      Consistent idOf (addItem idOf st item)) ∧
    (∀ items, items ≠ [] → (items.map idOf).Nodup →
      (∀ y ∈ items, idOf y ∉ st.itemIds ∧
        listFind idOf st.mainValue (idOf y) = none ∧
        lookupEntry st.reg (itemKey st.key (idOf y)) = none) →
      Consistent idOf (addItems idOf st items)) := by
  refine ⟨?_, ?_, ?_, ?_, ?_⟩
  · intro id f hf
    exact updateItem_consistent idOf st hC id f hf
  · intro id
    exact removeItem_consistent idOf st hC id
  · intro us hus
    exact batchUpdate_consistent idOf st hC us hus
  · intro item h1 h2 h3
    exact addItem_fresh_consistent idOf st hC item h1 h2 h3
  · intro items h1 h2 h3
    exact addItems_fresh_consistent idOf st hC items h1 h3 h2

/-- The empty list flow used by the C4 witness is trivially consistent. -/
theorem mkLSF_empty_consistent : Consistent Item.id (mkLSF Item.id "w4" []) := by
  intro id x hf
  exact absurd hf (by simp [mkLSF, initFlows, emitEv, mainUpdate, listFind])

/-- **C4 witness**: from the consistent empty list flow, adding the fresh
item `{id:"1",name:"a"}` preserves consistency. -/
theorem C4_witness :
    Consistent Item.id (addItem Item.id (mkLSF Item.id "w4" []) itemA) := by
  have h := (C4_amended Item.id (mkLSF Item.id "w4" []) mkLSF_empty_consistent).2.2.2.1
  exact h itemA (by decide) rfl rfl

/-! ## Pre-subscription fulfilment (claims C7, C10) -/

/-- Trace of `subscribeToItem` on a not-yet-existing id followed by `addItem`
of that id (fresh in list, flow map and registry, first pre-subscription for
the id): the resulting state in explicit form.  The pending subscriber was
attached to the freshly created per-item cell — receiving the added item
immediately — and the pending record was cleared. -/
theorem emitEv_eq {T : Type} (st : LSF T) (e : LEvent T) :
    emitEv st e =
      { st with events := if st.emitEvents then st.events ++ [e] else st.events } := by
  unfold emitEv
  by_cases h : st.emitEvents
  · rw [if_pos h, if_pos h]
  · rw [if_neg h, if_neg h]

/-- `activatePending` when exactly one pre-subscription is waiting and the
item flow exists: the waiting callback is subscribed on the cell (and
immediately invoked with the cell's current value), the pending record is
dropped. -/
theorem activatePending_singleton {T : Type} (stM : LSF T) (id uid cb : String)
    (c : Cell T)
    (hp : lookupEntry stM.pending id = some [(uid, cb)])
    (hm : id ∈ stM.itemIds)
    (hc : lookupEntry stM.reg (itemKey stM.key id) = some c) :
    activatePending stM id =
      { stM with
          reg := setEntry stM.reg (itemKey stM.key id) ⟨c.value, setEntry c.subs uid cb⟩,
          ilog := stM.ilog ++ [(cb, c.value)],
          pending := delEntry stM.pending id } := by
  unfold activatePending
  cases hscrut : lookupEntry stM.pending id with
  | none => exact absurd (hp.symm.trans hscrut) (by simp)
  | some w =>
      have hw : w = [(uid, cb)] := (Option.some.inj (hp.symm.trans hscrut)).symm
      subst hw
      simp only [List.foldl_cons, List.foldl_nil]
      rw [if_pos hm]
      simp only [regSubscribe]
      rw [hc]

theorem addItem_after_presub {T : Type} (idOf : T → String) (st : LSF T)
    (id uid cb : String) (item : T)
    (hid : idOf item = id)
    (hFlow : id ∉ st.itemIds)
    (hPend : lookupEntry st.pending id = none)
    (hReg : lookupEntry st.reg (itemKey st.key id) = none)
    (_hList : (st.mainValue.any fun x => decide (idOf x = id)) = false) :
    addItem idOf (subscribeToItem st id uid cb) item =
      { st with
          mainValue := st.mainValue ++ [item],
          mainLog := st.mainLog ++ [st.mainValue ++ [item]],
          reg := setEntry (st.reg ++ [(itemKey st.key id, ⟨item, []⟩)])
            (itemKey st.key id) ⟨item, [(uid, cb)]⟩,
          itemIds := st.itemIds ++ [id],
          pending := delEntry (setEntry st.pending id [(uid, cb)]) id,
          ilog := st.ilog ++ [(cb, item)],
          aclog := st.aclog ++ st.addCbs.map (fun p => (p.2, item)),
          events := if st.emitEvents then st.events ++ [LEvent.itemAddedOne item]
                    else st.events } := by
  have hsub : subscribeToItem st id uid cb =
      { st with pending := setEntry st.pending id [(uid, cb)] } := by
    unfold subscribeToItem
    rw [if_neg hFlow, hPend]
    rfl
  rw [hsub]
  have hcond : ¬ (idOf item ∈ st.itemIds ∧
      ((st.mainValue.any fun x => decide (idOf x = idOf item)) = true)) := by
    rw [hid]
    intro hcon
    exact hFlow hcon.1
  simp only [addItem]
  rw [if_neg hcond]
  rw [hid]
  have hgoc : regGOC st.reg (itemKey st.key id) item =
      st.reg ++ [(itemKey st.key id, ⟨item, []⟩)] := by
    unfold regGOC
    rw [hReg]
    rfl
  have hset : setIdList st.itemIds id = st.itemIds ++ [id] := by
    unfold setIdList
    rw [if_neg hFlow]
  rw [hgoc, hset]
  have hregset : lookupEntry (st.reg ++ [(itemKey st.key id, (⟨item, []⟩ : Cell T))])
      (itemKey st.key id) = some ⟨item, []⟩ := by
    rw [lookupEntry_append, hReg]
    simp [lookupEntry_cons]
  have hmem : id ∈ st.itemIds ++ [id] :=
    List.mem_append_right _ (List.mem_singleton.mpr rfl)
  rw [emitEv_eq]
  have hact := activatePending_singleton
    ({ key := st.key, emitEvents := st.emitEvents,
       mainValue := st.mainValue ++ [item],
       mainLog := st.mainLog ++ [st.mainValue ++ [item]],
       reg := st.reg ++ [(itemKey st.key id, ⟨item, []⟩)],
       itemIds := st.itemIds ++ [id],
       pending := setEntry st.pending id [(uid, cb)], addCbs := st.addCbs,
       ilog := st.ilog,
       aclog := st.aclog ++ st.addCbs.map (fun p => (p.2, item)),
       events := if st.emitEvents then st.events ++ [LEvent.itemAddedOne item]
                 else st.events } : LSF T)
    id uid cb ⟨item, []⟩
    (lookupEntry_setEntry_self st.pending id [(uid, cb)]) hmem hregset
  exact hact

/-- **C7.**  `subscribeToItem` on a not-yet-existing id does not fail: it
records a pre-subscription.  A later `addItem` whose item carries that id
invokes the pending callback with that item — without any further
subscription call — and clears the pending record for the id. -/
theorem C7_pre_subscription {T : Type} (idOf : T → String) (st : LSF T)
    (id uid cb : String) (item : T)
    (hid : idOf item = id)
    (hFlow : id ∉ st.itemIds)
    (hPend : lookupEntry st.pending id = none)
    (hReg : lookupEntry st.reg (itemKey st.key id) = none)
    (hList : (st.mainValue.any fun x => decide (idOf x = id)) = false) :
    lookupEntry (subscribeToItem st id uid cb).pending id = some [(uid, cb)] ∧
    (addItem idOf (subscribeToItem st id uid cb) item).ilog = st.ilog ++ [(cb, item)] ∧
    lookupEntry (addItem idOf (subscribeToItem st id uid cb) item).pending id = none := by
  have hsub : subscribeToItem st id uid cb =
      { st with pending := setEntry st.pending id [(uid, cb)] } := by
    unfold subscribeToItem
    rw [if_neg hFlow, hPend]
    rfl
  refine ⟨?_, ?_, ?_⟩
  · rw [hsub]
    exact lookupEntry_setEntry_self st.pending id [(uid, cb)]
  · rw [addItem_after_presub idOf st id uid cb item hid hFlow hPend hReg hList]
  · rw [addItem_after_presub idOf st id uid cb item hid hFlow hPend hReg hList]
    exact lookupEntry_delEntry_self _ id

/-- **C7 witness**: pre-subscribing to id "42" on an empty list flow, then
adding `{id:"42",name:"x"}`. -/
theorem C7_witness :
    lookupEntry (subscribeToItem (mkLSF Item.id "w7" []) "42" "s1" "cb1").pending "42" =
      some [("s1", "cb1")] ∧
    (addItem Item.id (subscribeToItem (mkLSF Item.id "w7" []) "42" "s1" "cb1")
      (⟨"42", "x"⟩ : Item)).ilog =
      (mkLSF Item.id "w7" []).ilog ++ [("cb1", (⟨"42", "x"⟩ : Item))] ∧
    lookupEntry (addItem Item.id (subscribeToItem (mkLSF Item.id "w7" []) "42" "s1" "cb1")
      (⟨"42", "x"⟩ : Item)).pending "42" = none :=
  C7_pre_subscription Item.id (mkLSF Item.id "w7" []) "42" "s1" "cb1" ⟨"42", "x"⟩
    rfl (by decide) rfl rfl rfl

/-! ## Claim C10 -/

/-- **C10.**  After a pre-subscription for a fresh id has been fulfilled by
`addItem`, calling the unsubscribe closure that the original
`subscribeToItem` call returned is a no-op: the state is unchanged (in
particular the subscriber stays in the per-item cell's map and
`getSubscriberCount` is unchanged), the cell's subscriber map still holds
exactly the converted subscription, and a later `updateItem` still invokes
the callback with the updated value. -/
theorem C10_pending_unsub_noop {T : Type} (idOf : T → String) (st : LSF T)
    (id uid cb : String) (item : T) (f : T → T)
    (hid : idOf item = id)
    (hFlow : id ∉ st.itemIds)
    (hPend : lookupEntry st.pending id = none)
    (hReg : lookupEntry st.reg (itemKey st.key id) = none)
    (hList : (st.mainValue.any fun x => decide (idOf x = id)) = false) :
    pendingUnsub (addItem idOf (subscribeToItem st id uid cb) item) id uid =
      addItem idOf (subscribeToItem st id uid cb) item ∧
    lookupEntry (addItem idOf (subscribeToItem st id uid cb) item).reg
      (itemKey st.key id) = some ⟨item, [(uid, cb)]⟩ ∧
    (updateItem idOf (pendingUnsub (addItem idOf (subscribeToItem st id uid cb) item) id uid)
      id f).ilog =
      (addItem idOf (subscribeToItem st id uid cb) item).ilog ++ [(cb, f item)] := by
  have heq := addItem_after_presub idOf st id uid cb item hid hFlow hPend hReg hList
  have hlook2 : lookupEntry (addItem idOf (subscribeToItem st id uid cb) item).reg
      (itemKey st.key id) = some ⟨item, [(uid, cb)]⟩ := by
    rw [heq]
    exact lookupEntry_setEntry_self _ _ _
  have hnoop : pendingUnsub (addItem idOf (subscribeToItem st id uid cb) item) id uid =
      addItem idOf (subscribeToItem st id uid cb) item := by
    unfold pendingUnsub
    rw [show lookupEntry (addItem idOf (subscribeToItem st id uid cb) item).pending id =
      none by rw [heq]; exact lookupEntry_delEntry_self _ id]
  refine ⟨hnoop, hlook2, ?_⟩
  rw [hnoop]
  have hmem2 : id ∈ (addItem idOf (subscribeToItem st id uid cb) item).itemIds := by
    rw [heq]
    exact List.mem_append_right _ (List.mem_singleton.mpr rfl)
  have hkey2 : (addItem idOf (subscribeToItem st id uid cb) item).key = st.key := by
    rw [heq]
  unfold updateItem
  rw [if_pos hmem2, hkey2, hlook2]
  show (mainUpdate _ _).ilog = _
  unfold mainUpdate
  show (addItem idOf (subscribeToItem st id uid cb) item).ilog ++
      (regUpdateCell (addItem idOf (subscribeToItem st id uid cb) item).reg
        (itemKey st.key id) (f item)).2 = _
  unfold regUpdateCell
  rw [hlook2]
  rfl

/-- **C10 witness**: the C7 scenario followed by the original closure and a
further `updateItem`. -/
theorem C10_witness :
    pendingUnsub (addItem Item.id (subscribeToItem (mkLSF Item.id "w10" []) "42" "s1" "cb1")
        (⟨"42", "x"⟩ : Item)) "42" "s1" =
      addItem Item.id (subscribeToItem (mkLSF Item.id "w10" []) "42" "s1" "cb1")
        (⟨"42", "x"⟩ : Item) ∧
    lookupEntry (addItem Item.id (subscribeToItem (mkLSF Item.id "w10" []) "42" "s1" "cb1")
        (⟨"42", "x"⟩ : Item)).reg (itemKey "w10" "42") =
      some ⟨(⟨"42", "x"⟩ : Item), [("s1", "cb1")]⟩ ∧
    (updateItem Item.id
      (pendingUnsub (addItem Item.id (subscribeToItem (mkLSF Item.id "w10" []) "42" "s1" "cb1")
        (⟨"42", "x"⟩ : Item)) "42" "s1")
      "42" (fun y => ⟨y.id, y.name ++ "!"⟩)).ilog =
      (addItem Item.id (subscribeToItem (mkLSF Item.id "w10" []) "42" "s1" "cb1")
        (⟨"42", "x"⟩ : Item)).ilog ++ [("cb1", (⟨"42", "x!"⟩ : Item))] := by
  have h := C10_pending_unsub_noop Item.id (mkLSF Item.id "w10" []) "42" "s1" "cb1"
    ⟨"42", "x"⟩ (fun y => ⟨y.id, y.name ++ "!"⟩) rfl (by decide) rfl rfl rfl
  exact ⟨h.1, h.2.1, h.2.2⟩

/-! ## Claim C9 -/

theorem batchStep_frame {T : Type} (idOf : T → String) (acc : LSF T × List T)
    (u : String × (T → T)) :
    (batchStep idOf acc u).1.mainLog = acc.1.mainLog ∧
    (batchStep idOf acc u).1.key = acc.1.key ∧
    (batchStep idOf acc u).1.itemIds = acc.1.itemIds := by
  unfold batchStep
  by_cases hmem : u.1 ∈ acc.1.itemIds
  · rw [if_pos hmem]
    cases hlook : lookupEntry acc.1.reg (itemKey acc.1.key u.1) with
    | none => exact ⟨rfl, rfl, rfl⟩
    | some c => exact ⟨rfl, rfl, rfl⟩
  · rw [if_neg hmem]
    exact ⟨rfl, rfl, rfl⟩

theorem batchFold_frame {T : Type} (idOf : T → String) :
    ∀ (us : List (String × (T → T))) (acc : LSF T × List T),
      (us.foldl (batchStep idOf) acc).1.mainLog = acc.1.mainLog ∧
      (us.foldl (batchStep idOf) acc).1.key = acc.1.key ∧
      (us.foldl (batchStep idOf) acc).1.itemIds = acc.1.itemIds := by
  intro us
  induction us with
  | nil => intro acc; exact ⟨rfl, rfl, rfl⟩
  | cons u rest ih =>
      intro acc
      rw [List.foldl_cons]
      have hs := batchStep_frame idOf acc u
      have hi := ih (batchStep idOf acc u)
      exact ⟨hi.1.trans hs.1, hi.2.1.trans hs.2.1, hi.2.2.trans hs.2.2⟩

theorem batchStep_cell_ne {T : Type} (idOf : T → String) (acc : LSF T × List T)
    (u : String × (T → T)) (id : String) (hne : id ≠ u.1) :
    lookupEntry (batchStep idOf acc u).1.reg (itemKey acc.1.key id) =
      lookupEntry acc.1.reg (itemKey acc.1.key id) := by
  unfold batchStep
  by_cases hmem : u.1 ∈ acc.1.itemIds
  · rw [if_pos hmem]
    cases hlook : lookupEntry acc.1.reg (itemKey acc.1.key u.1) with
    | none => rfl
    | some c =>
        exact regUpdateCell_lookup_ne acc.1.reg (itemKey acc.1.key u.1)
          (itemKey acc.1.key id) (u.2 c.value) (itemKey_ne acc.1.key hne)
  · rw [if_neg hmem]

theorem batchFold_cell_ne {T : Type} (idOf : T → String) :
    ∀ (us : List (String × (T → T))) (acc : LSF T × List T) (id : String),
      id ∉ us.map Prod.fst →
      lookupEntry (us.foldl (batchStep idOf) acc).1.reg (itemKey acc.1.key id) =
        lookupEntry acc.1.reg (itemKey acc.1.key id) := by
  intro us
  induction us with
  | nil => intro acc id _; rfl
  | cons u rest ih =>
      intro acc id hnmem
      have hne : id ≠ u.1 := by
        intro hcon
        exact hnmem (by rw [List.map_cons, hcon]; exact List.mem_cons_self _ _)
      have hrest : id ∉ rest.map Prod.fst := by
        intro hcon
        exact hnmem (by rw [List.map_cons]; exact List.mem_cons_of_mem _ hcon)
      rw [List.foldl_cons]
      have hkeyStep := (batchStep_frame idOf acc u).2.1
      have hi := ih (batchStep idOf acc u) id hrest
      rw [hkeyStep] at hi
      rw [hi]
      exact batchStep_cell_ne idOf acc u id hne

theorem batchFold_target {T : Type} (idOf : T → String) :
    ∀ (us : List (String × (T → T))) (acc : LSF T × List T) (id : String)
      (f : T → T) (c : Cell T),
      (us.map Prod.fst).Nodup → (id, f) ∈ us →
      id ∈ acc.1.itemIds →
      lookupEntry acc.1.reg (itemKey acc.1.key id) = some c →
      lookupEntry (us.foldl (batchStep idOf) acc).1.reg (itemKey acc.1.key id) =
        some ⟨f c.value, c.subs⟩ := by
  intro us
  induction us with
  | nil => intro acc id f c _ hmem; exact absurd hmem (by simp)
  | cons u rest ih =>
      intro acc id f c hnd hmem hids hlook
      rw [List.map_cons] at hnd
      rw [List.foldl_cons]
      rcases List.mem_cons.mp hmem with hu | hrest
      · -- this entry is the targeted one; later entries never touch the cell
        have hufst : u.1 = id := by rw [← hu]
        have hstep : lookupEntry (batchStep idOf acc u).1.reg (itemKey acc.1.key id) =
            some ⟨f c.value, c.subs⟩ := by
          unfold batchStep
          rw [if_pos (by rw [hufst]; exact hids)]
          rw [show lookupEntry acc.1.reg (itemKey acc.1.key u.1) = some c by
            rw [hufst]; exact hlook]
          rw [show u.2 = f by rw [← hu]]
          rw [show u.1 = id from hufst]
          exact regUpdateCell_lookup_self acc.1.reg (itemKey acc.1.key id) (f c.value) c hlook
        have hnrest : id ∉ rest.map Prod.fst := by
          rw [← hufst]
          exact (List.nodup_cons.mp hnd).1
        have hkeyStep := (batchStep_frame idOf acc u).2.1
        have h2 := batchFold_cell_ne idOf rest (batchStep idOf acc u) id hnrest
        rw [hkeyStep] at h2
        rw [h2]
        exact hstep
      · -- the targeted entry is further down; this entry leaves the cell alone
        have hne : id ≠ u.1 := by
          intro hcon
          have h1 : id ∈ rest.map Prod.fst := List.mem_map_of_mem Prod.fst hrest
          rw [hcon] at h1
          exact (List.nodup_cons.mp hnd).1 h1
        have hstep := batchStep_cell_ne idOf acc u id hne
        have hkeyStep := (batchStep_frame idOf acc u).2.1
        have hidsStep : id ∈ (batchStep idOf acc u).1.itemIds := by
          rw [(batchStep_frame idOf acc u).2.2]
          exact hids
        have hlookStep : lookupEntry (batchStep idOf acc u).1.reg
            (itemKey (batchStep idOf acc u).1.key id) = some c := by
          rw [hkeyStep, hstep]
          exact hlook
        have hi := ih (batchStep idOf acc u) id f c (List.nodup_cons.mp hnd).2
          hrest hidsStep hlookStep
        rw [hkeyStep] at hi
        exact hi

/-- **C9.**  One `batchUpdate(updates)` call commits exactly one update to
the whole-collection cell — its notification log gains exactly one entry, so
every collection subscriber receives exactly one callback, however many
entries `updates` has — while each targeted per-item cell that exists is
updated individually with its updater's result (stated for pairwise-distinct
targets). -/
theorem C9_batch_single_notification {T : Type} (idOf : T → String) (st : LSF T)
    (us : List (String × (T → T))) :
    (batchUpdate idOf st us).mainLog =
      st.mainLog ++ [(batchUpdate idOf st us).mainValue] ∧
    (∀ id f c, (us.map Prod.fst).Nodup → (id, f) ∈ us → id ∈ st.itemIds →
      lookupEntry st.reg (itemKey st.key id) = some c →
      lookupEntry (batchUpdate idOf st us).reg (itemKey st.key id) =
        some ⟨f c.value, c.subs⟩) := by
  constructor
  · show (us.foldl (batchStep idOf) (st, st.mainValue)).1.mainLog ++ _ = _
    rw [(batchFold_frame idOf us (st, st.mainValue)).1]
    rfl
  · intro id f c hnd hmem hids hlook
    exact batchFold_target idOf us (st, st.mainValue) id f c hnd hmem hids hlook

/-- **C9 witness**: a two-item list, a two-entry batch; the collection cell
is committed once and item "1"'s cell holds the updater's result. -/
theorem C9_witness :
    (batchUpdate Item.id (mkLSF Item.id "w9" [⟨"1", "a"⟩, ⟨"2", "b"⟩])
      [("1", c9f), ("2", c9f)]).mainLog =
      (mkLSF Item.id "w9" [⟨"1", "a"⟩, ⟨"2", "b"⟩]).mainLog ++
        [(batchUpdate Item.id (mkLSF Item.id "w9" [⟨"1", "a"⟩, ⟨"2", "b"⟩])
          [("1", c9f), ("2", c9f)]).mainValue] ∧
    lookupEntry (batchUpdate Item.id (mkLSF Item.id "w9" [⟨"1", "a"⟩, ⟨"2", "b"⟩])
        [("1", c9f), ("2", c9f)]).reg (itemKey "w9" "1") =
      some ⟨c9f ⟨"1", "a"⟩, []⟩ := by
  have h := C9_batch_single_notification Item.id
    (mkLSF Item.id "w9" [⟨"1", "a"⟩, ⟨"2", "b"⟩]) [("1", c9f), ("2", c9f)]
  refine ⟨h.1, ?_⟩
  have h2 := h.2 "1" c9f ⟨⟨"1", "a"⟩, []⟩ (by decide)
    (List.mem_cons_self _ _) (by decide) rfl
  exact h2

end Kotlineum
